import Mathlib

/-!
Verification of the prayerhub-mini scheduling and playback core.

Shallow embedding of the Python sources under `src/prayerhub/`:
`prayer_times.py`, `cache_store.py`, `scheduler.py`, `prayer_api.py`,
`audio.py`, `background_keepalive.py`, `playback.py`, `playback_timeout.py`.

Conventions of the embedding:
* Python exceptions are values of `PyErr`; fallible code returns `Except PyErr _`
  or threads an `Option PyErr` alongside mutated state.
* JSON values are the inductive `Json` (numbers as `Int`; no float-valued JSON
  appears in the code paths under study).
* `datetime` values are absolute counts (minutes for the scheduler, seconds for
  the derivation pass) anchored at the proleptic-Gregorian ordinal used by
  CPython's `date.toordinal`; comparison and subtraction then agree with
  CPython's naive-datetime comparison and subtraction.
* Injected clocks (`now_provider`) are modelled as a fixed instant, matching
  the `FixedNow` clocks the repository's tests inject.
-/

namespace Prayerhub

/-- Python exception kinds distinguished by the embedded code. -/
inductive PyErr where
  | apiError
  | valueError
  | typeError
  | attributeError
  deriving DecidableEq, Repr

/-- JSON values as stored in the cache and returned by the API. -/
inductive Json where
  | jnull
  | jbool (b : Bool)
  | jnum (n : Int)
  | jstr (s : String)
  | jarr (xs : List Json)
  | jobj (kvs : List (String × Json))
  deriving Repr

namespace Json

/-- CPython truthiness of a JSON value (`if value:`). -/
def truthy : Json → Bool
  | .jnull => false
  | .jbool b => b
  | .jnum n => n ≠ 0
  | .jstr s => s ≠ ""
  | .jarr xs => ¬ xs.isEmpty
  | .jobj kvs => ¬ kvs.isEmpty

end Json

/-- `dict.get k` / `k in dict`: first binding of `k` in the association list.
Python dicts have unique keys; the embedding reads the first binding. -/
def jget (kvs : List (String × Json)) (k : String) : Option Json :=
  (kvs.find? (fun p => p.1 = k)).map (·.2)

/-- `dict[k] = v`: update the first binding of `k` in place if present, else
append (dict insertion-order semantics; keys are unique in a Python dict). -/
def jset : List (String × Json) → String → Json → List (String × Json)
  | [], k, v => [(k, v)]
  | p :: rest, k, v => if p.1 = k then (k, v) :: rest else p :: jset rest k v

@[simp] theorem jget_nil (k : String) : jget [] k = none := rfl

theorem jget_cons (p : String × Json) (rest : List (String × Json)) (k : String) :
    jget (p :: rest) k = if p.1 = k then some p.2 else jget rest k := by
  by_cases h : p.1 = k <;> simp [jget, List.find?, h]

theorem jget_jset_same (kvs : List (String × Json)) (k : String) (v : Json) :
    jget (jset kvs k v) k = some v := by
  induction kvs with
  | nil => simp [jset, jget_cons]
  | cons p rest ih =>
    by_cases h : p.1 = k
    · simp [jset, h, jget_cons]
    · simp [jset, h, jget_cons, ih]

theorem jget_jset_ne (kvs : List (String × Json)) (k k2 : String) (v : Json)
    (h : k2 ≠ k) : jget (jset kvs k v) k2 = jget kvs k2 := by
  have hne : ¬ k = k2 := fun hh => h hh.symm
  induction kvs with
  | nil => simp [jset, jget_cons, hne]
  | cons p rest ih =>
    by_cases hp : p.1 = k
    · have hp2 : ¬ p.1 = k2 := by rw [hp]; exact hne
      simp [jset, hp, jget_cons, hp2, hne]
    · by_cases hq : p.1 = k2
      · simp [jset, hp, jget_cons, hq, h]
      · simp [jset, hp, jget_cons, hq, ih]

/-! ### Dates, clock strings and formatting -/

/-- A `datetime.date`: calendar year/month/day (CPython validates ranges at
construction; the embedding carries them as plain naturals and validates where
the source parses). -/
structure Date where
  year : Nat
  month : Nat
  day : Nat
  deriving DecidableEq, Repr

/-- Leap year rule used by `datetime`. -/
def isLeap (y : Nat) : Bool := y % 4 = 0 ∧ (y % 100 ≠ 0 ∨ y % 400 = 0)

/-- Length of a month, matching `calendar`/`datetime`. -/
def daysInMonth (y m : Nat) : Nat :=
  if m = 2 then (if isLeap y then 29 else 28)
  else if m = 4 ∨ m = 6 ∨ m = 9 ∨ m = 11 then 30
  else 31

/-- Days in months strictly before `m` of year `y`. -/
def daysBeforeMonth (y m : Nat) : Nat :=
  (List.range (m - 1)).foldl (fun acc i => acc + daysInMonth y (i + 1)) 0

/-- `date.toordinal`: day number with 0001-01-01 as day 1 (proleptic
Gregorian calendar). -/
def Date.toOrdinal (d : Date) : Nat :=
  365 * (d.year - 1) + (d.year - 1) / 4 - (d.year - 1) / 100 + (d.year - 1) / 400
    + daysBeforeMonth d.year d.month + d.day

/-- Zero-pad the decimal representation of `n` to width `w` (strftime-style). -/
def padNum (w n : Nat) : String :=
  let s := toString n
  String.mk (List.replicate (w - s.length) '0') ++ s

/-- `str.split(sep)` on a single-character separator, over the char list. -/
def splitOnChar (sep : Char) : List Char → List (List Char)
  | [] => [[]]
  | c :: rest =>
    let r := splitOnChar sep rest
    if c = sep then [] :: r
    else
      match r with
      | [] => [[c]]
      | g :: gs => (c :: g) :: gs

/-- `int(s)` restricted to digit strings (the semantics of `String.toNat?`,
re-implemented over the char list so concrete evaluations reduce). -/
def strToNat? (cs : List Char) : Option Nat :=
  if cs ≠ [] ∧ cs.all Char.isDigit then
    some (cs.foldl (fun a c => 10 * a + (c.toNat - 48)) 0)
  else none

/-- `s.endswith(t)` over char lists. -/
def strEndsWith (s t : String) : Bool :=
  decide (t.data = s.data.drop (s.data.length - t.data.length))

/-- Lexicographic code-point order on char lists — the order Python's
`sorted` applies to strings (identical to Lean's `String` order, restated
over `List Char` so that it evaluates). -/
def charListLe : List Char → List Char → Bool
  | [], _ => true
  | _ :: _, [] => false
  | a :: as, b :: bs => if a = b then charListLe as bs else decide (a < b)

/-- `a <= b` on Python strings. -/
def strLe (a b : String) : Bool := charListLe a.data b.data

/-- `day.strftime("%Y%m%d")` — the date suffix used in job ids. -/
def Date.ymdCompact (d : Date) : String :=
  padNum 4 d.year ++ padNum 2 d.month ++ padNum 2 d.day

/-- `datetime.strptime(s, "%H:%M")` reduced to minutes after midnight.
`%H`/`%M` each match one or two digits; hour must be < 24, minute < 60.
Returns `none` where CPython raises `ValueError`. -/
def strptimeHHMM (s : String) : Option Nat :=
  match splitOnChar ':' s.data with
  | [h, m] =>
    if h.length ≤ 2 ∧ m.length ≤ 2 then
      match strToNat? h, strToNat? m with
      | some hv, some mv => if hv ≤ 23 ∧ mv ≤ 59 then some (60 * hv + mv) else none
      | _, _ => none
    else none
  | _ => none

/-- The scheduler's clock parse: `hh, mm = hhmm.split(":")` followed by
`time(int(hh), int(mm))`. `int` accepts arbitrarily many digits (the embedding
restricts to digit strings, the only shape the data model produces); `time`
validates hour < 24 and minute < 60. Returns `none` where CPython raises. -/
def clockHHMM (s : String) : Option Nat :=
  match splitOnChar ':' s.data with
  | [h, m] =>
    match strToNat? h, strToNat? m with
    | some hv, some mv => if hv ≤ 23 ∧ mv ≤ 59 then some (60 * hv + mv) else none
    | _, _ => none
  | _ => none

/-- `datetime.strptime(s, "%Y-%m-%d").date()`: ISO date parse used by
`day_plan_from_api`. Returns `none` where CPython raises `ValueError`. -/
def parseDateISO (s : String) : Option Date :=
  match splitOnChar '-' s.data with
  | [y, m, d] =>
    if y.length ≤ 4 ∧ m.length ≤ 2 ∧ d.length ≤ 2 then
      match strToNat? y, strToNat? m, strToNat? d with
      | some yv, some mv, some dv =>
        if 1 ≤ yv ∧ yv ≤ 9999 ∧ 1 ≤ mv ∧ mv ≤ 12 ∧ 1 ≤ dv ∧ dv ≤ daysInMonth yv mv
        then some ⟨yv, mv, dv⟩ else none
      | _, _, _ => none
    else none
  | _ => none

/-- `dt.strftime("%H:%M")` of an absolute naive datetime measured in seconds:
hour and minute fields of the clock time, seconds discarded. -/
def fmtHM (t : Int) : String :=
  let u := (t % 86400).toNat
  padNum 2 (u / 3600) ++ ":" ++ padNum 2 (u % 3600 / 60)

/-! ### DayPlan and `day_plan_from_api` (`prayer_times.py`) -/

/-- `DayPlan` (frozen dataclass). `madhab`/`city` are carried opaquely exactly
as the payload supplied them; `times` is the `dict(times)` copy. -/
structure DayPlan where
  date : Date
  madhab : Json
  city : Json
  times : List (String × Json)
  deriving Repr

/-- `day_plan_from_api`: strict parse of a payload object.  Missing required
field (checked in source order `date`, `madhab`, `city`, `times`) raises
`ApiError`; a non-mapping `times` raises `ApiError`; `strptime` raises
`ValueError` on a malformed date string and `TypeError` on a non-string. -/
def dayPlanFromApi (payload : List (String × Json)) : Except PyErr DayPlan :=
  match jget payload "date" with
  | none => Except.error PyErr.apiError
  | some rawDate =>
    match jget payload "madhab" with
    | none => Except.error PyErr.apiError
    | some madhab =>
      match jget payload "city" with
      | none => Except.error PyErr.apiError
      | some city =>
        match jget payload "times" with
        | none => Except.error PyErr.apiError
        | some times =>
          match times with
          | Json.jobj timesDict =>
            match rawDate with
            | Json.jstr s =>
              match parseDateISO s with
              | some d => Except.ok ⟨d, madhab, city, timesDict⟩
              | none => Except.error PyErr.valueError
            | _ => Except.error PyErr.typeError
          | _ => Except.error PyErr.apiError

/-! ### CacheStore.read and PrayerTimeService.get_day -/

/-- What is on disk for a cache key: no file, unparsable JSON, or a JSON
value. -/
inductive FileContent where
  | missing
  | corrupt
  | json (j : Json)

/-- `CacheStore.read`: a missing file, a JSON parse failure, and a non-object
JSON value all yield `None` (logged, non-fatal). -/
def cacheRead : FileContent → Option (List (String × Json))
  | .missing => none
  | .corrupt => none
  | .json j =>
    match j with
    | Json.jobj kvs => some kvs
    | _ => none

/-- `PrayerTimeService.get_day`: `if not cached: return None` (Python
falsiness: `None` and the empty dict both return absent), then
`day_plan_from_api(cached)` with any exception propagating to the caller. -/
def getDay (stored : FileContent) : Except PyErr (Option DayPlan) :=
  match cacheRead stored with
  | none => Except.ok none
  | some cached =>
    if cached.isEmpty then Except.ok none
    else (dayPlanFromApi cached).map some

/-! ### `_derive_extras` (`prayer_times.py`) -/

/-- `prayer_times._combine(day, hhmm)` in absolute seconds:
`strptime(f"{day.isoformat()} {hhmm}", "%Y-%m-%d %H:%M")`. The date half always
parses (isoformat output); the time half must be a string matching `%H:%M` —
the f-string rendering of any non-string JSON value (number, list, …) cannot
match the format, so those raise `ValueError` just as a malformed string does. -/
def ptCombine (day : Date) (hhmm : Json) : Except PyErr Int :=
  match hhmm with
  | Json.jstr s =>
    match strptimeHHMM s with
    | some mins => Except.ok ((day.toOrdinal : Int) * 86400 + 60 * mins)
    | none => Except.error PyErr.valueError
  | _ => Except.error PyErr.valueError

/-- Truthiness of `dict.get` output: `None` is falsy. -/
def optTruthy : Option Json → Bool
  | none => false
  | some j => j.truthy

/-- First block of `_derive_extras`: fill `sunset = maghrib − 20 minutes` when
`sunset` is absent and `maghrib` is present and truthy. -/
def sunsetFill (day : Date) (times : List (String × Json)) :
    Except PyErr (List (String × Json)) :=
  if (jget times "sunset").isNone then
    match jget times "maghrib" with
    | some mg =>
      if mg.truthy then
        match ptCombine day mg with
        | Except.ok s => Except.ok (jset times "sunset" (Json.jstr (fmtHM (s - 1200))))
        | Except.error e => Except.error e
      else Except.ok times
    | none => Except.ok times
  else Except.ok times

/-- `_derive_extras(plan, next_plan)`: sunset fill, then — only when a
successor exists and midnight/tahajjud are not both present — the night
interval `night = fajr(N+1) − maghrib(N)`; non-positive nights abort the pair;
`midnight = maghrib + night/2` and `tahajjud = fajr − night/3`, each filled
only when absent. -/
def deriveExtras (plan : DayPlan) (nextPlan : Option DayPlan) : Except PyErr DayPlan :=
  match sunsetFill plan.date plan.times with
  | Except.error e => Except.error e
  | Except.ok times =>
    match nextPlan with
    | none => Except.ok { plan with times := times }
    | some np =>
      if (jget times "midnight").isSome ∧ (jget times "tahajjud").isSome then
        Except.ok { plan with times := times }
      else
        let maghrib := jget times "maghrib"
        let nextFajr := jget np.times "fajr"
        if ¬ (optTruthy maghrib ∧ optTruthy nextFajr) then
          Except.ok { plan with times := times }
        else
          match ptCombine plan.date (maghrib.getD Json.jnull) with
          | Except.error e => Except.error e
          | Except.ok maghribDt =>
            match ptCombine np.date (nextFajr.getD Json.jnull) with
            | Except.error e => Except.error e
            | Except.ok fajrDt =>
              let night := fajrDt - maghribDt
              if night ≤ 0 then
                Except.ok { plan with times := times }
              else
                let times2 := if (jget times "midnight").isNone then
                    jset times "midnight" (Json.jstr (fmtHM (maghribDt + night / 2)))
                  else times
                let times3 := if (jget times2 "tahajjud").isNone then
                    jset times2 "tahajjud" (Json.jstr (fmtHM (fajrDt - night / 3)))
                  else times2
                Except.ok { plan with times := times3 }

/-- `PrayerTimeService._derive_missing_extras`: pair each plan of the batch
with its chronological successor in the list; the last plan gets none. -/
def deriveMissingExtras : List DayPlan → Except PyErr (List DayPlan)
  | [] => Except.ok []
  | [p] =>
    match deriveExtras p none with
    | Except.error e => Except.error e
    | Except.ok q => Except.ok [q]
  | p :: np :: rest =>
    match deriveExtras p (some np) with
    | Except.error e => Except.error e
    | Except.ok q =>
      match deriveMissingExtras (np :: rest) with
      | Except.error e => Except.error e
      | Except.ok qs => Except.ok (q :: qs)

/-! ### `JobScheduler` (`scheduler.py`)

APScheduler's job store is modelled as a list of jobs unique by id;
`add_job(..., replace_existing=True)` replaces in place or appends;
`remove_job` deletes by id. `now_provider` is a fixed injected instant.
Exceptions raised mid-`schedule_day` (malformed time strings) leave the
partially mutated store in place, so the embedding threads the store alongside
an optional raised error instead of discarding it. -/

/-- A scheduled one-shot job: its id, absolute run time (minutes) and the
event name passed to the handler. -/
structure Job where
  id : String
  runAt : Int
  name : String
  deriving DecidableEq, Repr

/-- `scheduler.add_job(..., id=jobId, replace_existing=True)`. -/
def addJob (jobs : List Job) (j : Job) : List Job :=
  if jobs.any (fun o => o.id == j.id) then
    jobs.map (fun o => if o.id == j.id then j else o)
  else jobs ++ [j]

/-- `JobScheduler._job_id`. -/
def eventJobId (name : String) (day : Date) : String :=
  "event_" ++ name ++ "_" ++ day.ymdCompact

/-- `JobScheduler._quran_job_id`: `hhmm.replace(":", "")` drops every colon
from the time label. -/
def quranJobId (day : Date) (hhmm : String) : String :=
  "quran_" ++ day.ymdCompact ++ "_" ++ String.mk (hhmm.data.filter (fun c => ¬ c = ':'))

/-- `JobScheduler._remove_jobs_for_date`: drop every job whose id ends with
the date's `%Y%m%d` rendering. -/
def removeJobsForDate (jobs : List Job) (day : Date) : List Job :=
  jobs.filter (fun j => ! strEndsWith j.id day.ymdCompact)

/-- `JobScheduler._combine(day, hhmm)` in absolute minutes, for a `times`
value (a JSON value: `.split` on a non-string raises `AttributeError`). -/
def schedCombineJson (day : Date) (hhmm : Json) : Except PyErr Int :=
  match hhmm with
  | Json.jstr s =>
    match clockHHMM s with
    | some mins => Except.ok ((day.toOrdinal : Int) * 1440 + mins)
    | none => Except.error PyErr.valueError
  | _ => Except.error PyErr.attributeError

/-- `JobScheduler._combine(day, hhmm)` for a configured Quran time (a plain
string). -/
def schedCombineStr (day : Date) (hhmm : String) : Except PyErr Int :=
  match clockHHMM hhmm with
  | some mins => Except.ok ((day.toOrdinal : Int) * 1440 + mins)
  | none => Except.error PyErr.valueError

/-- The named-event loop of `schedule_day`: walk the name-sorted `times`
items, skip non-future instants, add one job per remaining item. An exception
stops the loop, keeping the jobs added so far. -/
def addEventJobs (now : Int) (day : Date) :
    List (String × Json) → List Job → List Job × Option PyErr
  | [], jobs => (jobs, none)
  | (name, v) :: rest, jobs =>
    match schedCombineJson day v with
    | Except.error e => (jobs, some e)
    | Except.ok runAt =>
      if runAt ≤ now then addEventJobs now day rest jobs
      else addEventJobs now day rest (addJob jobs ⟨eventJobId name day, runAt, name⟩)

/-- The Quran loop of `schedule_day`, over the sorted configured times. -/
def addQuranJobs (now : Int) (day : Date) :
    List String → List Job → List Job × Option PyErr
  | [], jobs => (jobs, none)
  | hhmm :: rest, jobs =>
    match schedCombineStr day hhmm with
    | Except.error e => (jobs, some e)
    | Except.ok runAt =>
      if runAt ≤ now then addQuranJobs now day rest jobs
      else addQuranJobs now day rest (addJob jobs ⟨quranJobId day hhmm, runAt, "quran@" ++ hhmm⟩)

/-- `JobScheduler.schedule_day(plan, quran_times=...)`. `sorted(...)` sorts
the items by name (dict keys are unique, so the tuple comparison never reaches
the values) and the Quran times lexicographically; `quran_times or []` makes
an absent list empty. -/
def scheduleDay (now : Int) (jobs : List Job) (plan : DayPlan)
    (quranTimes : List String) : List Job × Option PyErr :=
  let jobs := removeJobsForDate jobs plan.date
  let sortedTimes := plan.times.insertionSort (fun a b => strLe a.1 b.1)
  match addEventJobs now plan.date sortedTimes jobs with
  | (jobs, some e) => (jobs, some e)
  | (jobs, none) =>
    addQuranJobs now plan.date (quranTimes.insertionSort (fun a b => strLe a b)) jobs

/-! ### `PrayerApiClient._get` (`prayer_api.py`)

The injected HTTP session is modelled as a map from attempt index to what
`session.get` does on that attempt; the injected `sleep` is recorded as the
list of delays passed to it. Backoff base seconds are rationals (the source
uses a float). -/

/-- What one `session.get` call does: raise a `requests.RequestException`, or
return a response with a status code and a body (whose `.json()` behaviour is
one of: invalid JSON, a non-object value, or an object). -/
inductive HttpBody where
  | invalidJson
  | nonObject
  | object (data : List (String × Json))

inductive AttemptOutcome where
  | raised
  | response (status : Nat) (body : HttpBody)

/-- The errors `_get` can raise, tagged the way the source builds them. -/
inductive GetErr where
  | requestFailed       -- transport-level RequestException wrapped as ApiError
  | statusError (code : Nat)
  | invalidJson
  | notObject
  | exhausted           -- the unreachable final `raise` at the end of `_get`
  deriving DecidableEq, Repr

/-- Trace and result of one `_get` call. -/
structure GetRun where
  attempts : Nat
  sleeps : List ℚ
  result : Except GetErr (List (String × Json))

/-- The retry loop of `_get`: `attempt` indexes from 0, `fuel` counts the
iterations left out of `max_retries + 1`. Each iteration returns on a 200 with
an object body, raises at once on invalid JSON / non-object / non-retryable
error, and otherwise retries while attempts remain, sleeping
`base * 2 ** attempt` when that delay is positive. -/
def getLoop (outs : Nat → AttemptOutcome) (maxRetries : Nat) (base : ℚ) :
    Nat → Nat → List ℚ → GetRun
  | 0, attempt, sleeps => ⟨attempt, sleeps, Except.error GetErr.exhausted⟩
  | fuel + 1, attempt, sleeps =>
    match outs attempt with
    | AttemptOutcome.raised =>
      -- should_retry = True: retry while attempts remain, else raise
      if attempt < maxRetries then
        getLoop outs maxRetries base fuel (attempt + 1)
          (sleeps ++ if 0 < base * 2 ^ attempt then [base * 2 ^ attempt] else [])
      else ⟨attempt + 1, sleeps, Except.error GetErr.requestFailed⟩
    | AttemptOutcome.response status body =>
      if status ≠ 200 then
        -- should_retry = (status >= 500)
        if 500 ≤ status ∧ attempt < maxRetries then
          getLoop outs maxRetries base fuel (attempt + 1)
            (sleeps ++ if 0 < base * 2 ^ attempt then [base * 2 ^ attempt] else [])
        else ⟨attempt + 1, sleeps, Except.error (GetErr.statusError status)⟩
      else
        match body with
        | HttpBody.invalidJson => ⟨attempt + 1, sleeps, Except.error GetErr.invalidJson⟩
        | HttpBody.nonObject => ⟨attempt + 1, sleeps, Except.error GetErr.notObject⟩
        | HttpBody.object d => ⟨attempt + 1, sleeps, Except.ok d⟩

/-- `PrayerApiClient._get` under an injected session behaviour. -/
def getRun (outs : Nat → AttemptOutcome) (maxRetries : Nat) (base : ℚ) : GetRun :=
  getLoop outs maxRetries base (maxRetries + 1) 0 []

/-! ### `AudioPlayer.play` (`audio.py`)

The shared `threading.Lock` is the single in-process exclusive playback slot;
`lockHeld` says whether some playback currently holds it. The trace records
every `runner.run` subprocess call plus the monitor notifications the tests
expect (`on_foreground_start` / `on_foreground_end`) — which the source never
makes. -/

inductive Backend where
  | pipewire
  | pulseaudio
  deriving DecidableEq, Repr

/-- Events observable from a `play` call. -/
inductive PlayCall where
  | run (argv0 : String)          -- a runner.run subprocess invocation
  | monitorStart                   -- keepalive.on_foreground_start()
  | monitorEnd                     -- keepalive.on_foreground_end()
  deriving DecidableEq, Repr

/-- Recognizer for subprocess-run trace entries: true only on `PlayCall.run`,
false on the monitor notifications. -/
def isRunCall : PlayCall → Bool
  | PlayCall.run _ => true
  | _ => false

/-- Environment a single `play` call sees: collaborators' behaviour. -/
structure PlayEnv where
  fileExists : Bool         -- path.exists()
  backend : Option Backend  -- AudioRouter._detect_backend result
  setVolumeRaises : Bool    -- runner.run inside set_master_volume raises
  mpg123 : Bool             -- runner.which("mpg123") finds it
  ffplay : Bool             -- runner.which("ffplay") finds it
  runRaises : Bool          -- the player subprocess call raises
  returncode : Int          -- otherwise its exit code

/-- `AudioRouter.set_master_volume`: one subprocess call per detected backend,
a warning (no call) when none. -/
def setVolumeCalls (backend : Option Backend) : List PlayCall :=
  match backend with
  | some Backend.pipewire => [PlayCall.run "wpctl"]
  | some Backend.pulseaudio => [PlayCall.run "pactl"]
  | none => []

/-- `AudioPlayer.play`: returns (result, slot held after the call, trace).
The slot is acquired with `acquire(blocking=False)`; a missing file returns
before touching the slot; the `try`/`finally` releases the slot on the
success, failure and exception paths once it was acquired. -/
def play (lockHeld : Bool) (env : PlayEnv) : Bool × Bool × List PlayCall :=
  if ¬ env.fileExists then (false, lockHeld, [])
  else if lockHeld then (false, true, [])
  else
    -- slot acquired; finally-release makes the final slot state free
    if env.setVolumeRaises then (false, false, setVolumeCalls env.backend)
    else
      let volCalls := setVolumeCalls env.backend
      if env.mpg123 then
        if env.runRaises then (false, false, volCalls ++ [PlayCall.run "mpg123"])
        else (decide (env.returncode = 0), false, volCalls ++ [PlayCall.run "mpg123"])
      else if env.ffplay then
        if env.runRaises then (false, false, volCalls ++ [PlayCall.run "ffplay"])
        else (decide (env.returncode = 0), false, volCalls ++ [PlayCall.run "ffplay"])
      else (false, false, volCalls)

/-! ### `BackgroundKeepAliveService` (`background_keepalive.py`) -/

/-- The mutable state of the keepalive service: the spawned background
process (with whether it is still alive, i.e. `poll()` returns `None`) and
the modulator thread. -/
structure KeepAliveState where
  process : Option Bool      -- some alive ↦ _process set, poll() = none iff alive
  modulator : Bool           -- a live modulator thread exists
  deriving DecidableEq, Repr

/-- `BackgroundKeepAliveService.is_running`. -/
def isRunning (s : KeepAliveState) : Bool :=
  match s.process with
  | none => false
  | some alive => alive

/-- `_stop_process`: terminate (errors swallowed), then `_process = None` in
the `finally`. -/
def stopProcess (s : KeepAliveState) : KeepAliveState :=
  { s with process := none }

/-- `_stop_modulator`: signal, join with timeout, `_modulator_thread = None`. -/
def stopModulator (s : KeepAliveState) : KeepAliveState :=
  { s with modulator := false }

/-- `pause_for_foreground` (the body of `on_foreground_start`): no-op unless
running, else stop the modulator and the process. -/
def pauseForForeground (s : KeepAliveState) : KeepAliveState :=
  if ¬ isRunning s then s
  else stopProcess (stopModulator s)

/-- Environment of one `resume_if_idle` call. -/
structure ResumeEnv where
  bluetoothConfigured : Bool   -- self.bluetooth is not None
  btConnectOk : Bool           -- bluetooth.ensure_connected_once() result
  fileExists : Bool
  haveBackend : Bool           -- _build_command found mpg123/ffplay
  volumeCycleEnabled : Bool

/-- `resume_if_idle` (the body of `on_foreground_end`): no-op when already
running; requires the single-shot Bluetooth check when a manager is
configured; resolves the file; spawns the detached process; starts the
modulator when volume cycling is on. Returns the new state and whether a
process was spawned. -/
def resumeIfIdle (s : KeepAliveState) (env : ResumeEnv) : KeepAliveState × Bool :=
  if isRunning s then (s, false)
  else if env.bluetoothConfigured ∧ ¬ env.btConnectOk then (s, false)
  else if ¬ env.fileExists then (s, false)
  else if ¬ env.haveBackend then (s, false)
  else ({ process := some true, modulator := env.volumeCycleEnabled }, true)

/-! ### `PlaybackTimeoutPolicy.resolve` (`playback_timeout.py`)

Probed durations are rationals standing in for the source's floats (the only
operation applied to them is `math.ceil(duration + buffer)`, which agrees
between the two representations away from representation boundaries). -/

/-- A `PlaybackTimeoutPolicy` together with the injected probe's behaviour
for the resolved path: absent probe, a probe call that raises, or a probe
result (`None` for unavailable). -/
structure TimeoutPolicy where
  strategy : String
  fallbackSeconds : Int
  bufferSeconds : Int
  probe : Option (Except PyErr (Option ℚ))

/-- `PlaybackTimeoutPolicy.resolve`: `None` means unbounded playback. -/
def resolveTimeout (p : TimeoutPolicy) : Except PyErr (Option Int) :=
  let fallback := if p.fallbackSeconds = 0 then none else some p.fallbackSeconds
  if p.strategy ≠ "auto" then Except.ok fallback
  else
    match p.probe with
    | none => Except.ok fallback
    | some probeCall =>
      match probeCall with
      | Except.error e => Except.error e
      | Except.ok none => Except.ok fallback
      | Except.ok (some duration) =>
        let timeout := ⌈duration + (p.bufferSeconds : ℚ)⌉
        if timeout ≤ 0 then Except.ok fallback else Except.ok (some timeout)

/-! ### `PlaybackHandler.handle_event` (`playback.py`) -/

/-- The audio configuration consumed by `_select_audio` (paths as configured;
`_resolve` merely anchors relative paths, which the claims do not observe). -/
structure AudioConfig where
  testAudio : String
  fajr : String
  dhuhr : String
  asr : String
  maghrib : String
  isha : String
  sunrise : String
  sunset : String
  midnight : String
  tahajjud : String
  quranSchedule : List (String × String)   -- (time label, file)
  testPercent : Int
  fajrAdhanPercent : Int
  adhanPercent : Int
  notificationPercent : Int
  quranPercent : Int

/-- `PlaybackHandler._select_audio`. -/
def selectAudio (cfg : AudioConfig) (eventName : String) : Option (String × Int) :=
  if eventName = "test_audio" then some (cfg.testAudio, cfg.testPercent)
  else if eventName = "fajr" then some (cfg.fajr, cfg.fajrAdhanPercent)
  else if eventName = "dhuhr" then some (cfg.dhuhr, cfg.adhanPercent)
  else if eventName = "asr" then some (cfg.asr, cfg.adhanPercent)
  else if eventName = "maghrib" then some (cfg.maghrib, cfg.adhanPercent)
  else if eventName = "isha" then some (cfg.isha, cfg.adhanPercent)
  else if eventName = "sunrise" then some (cfg.sunrise, cfg.notificationPercent)
  else if eventName = "sunset" then some (cfg.sunset, cfg.notificationPercent)
  else if eventName = "midnight" then some (cfg.midnight, cfg.notificationPercent)
  else if eventName = "tahajjud" then some (cfg.tahajjud, cfg.notificationPercent)
  else if (String.mk (eventName.data.take 6)) = "quran@" then
    let timeLabel := String.mk (eventName.data.drop 6)
    match cfg.quranSchedule.find? (fun item => item.1 = timeLabel) with
    | some item => some (item.2, cfg.quranPercent)
    | none => none
  else none

/-- One `handle_event` call's collaborators: the Bluetooth single-shot check
(which may raise), the timeout policy if configured with its probe behaviour,
the static fallback, and the player (which may raise). -/
structure HandlerEnv where
  btOutcome : Except PyErr Bool
  audio : AudioConfig
  timeoutPolicy : Option TimeoutPolicy
  staticTimeoutSeconds : Int
  playOutcome : String → Int → Option Int → Except PyErr Bool

/-- `PlaybackHandler._resolve_timeout`. -/
def handlerResolveTimeout (env : HandlerEnv) : Except PyErr (Option Int) :=
  match env.timeoutPolicy with
  | some policy => resolveTimeout policy
  | none =>
    if env.staticTimeoutSeconds = 0 then Except.ok none
    else Except.ok (some env.staticTimeoutSeconds)

/-- The `try` body of `handle_event`. -/
def handleEventInner (env : HandlerEnv) (eventName : String) : Except PyErr Bool :=
  match env.btOutcome with
  | Except.error e => Except.error e
  | Except.ok connected =>
    if ¬ connected then Except.ok false
    else
      match selectAudio env.audio eventName with
      | none => Except.ok false
      | some (path, volume) =>
        match handlerResolveTimeout env with
        | Except.error e => Except.error e
        | Except.ok timeout => env.playOutcome path volume timeout

/-- `PlaybackHandler.handle_event`: the blanket `except Exception` converts
any raised error into `False`. -/
def handleEvent (env : HandlerEnv) (eventName : String) : Bool :=
  match handleEventInner env eventName with
  | Except.ok b => b
  | Except.error _ => false

/-! ## Claims -/

/-- Claim C9: under a non-auto strategy `resolve` returns the configured
fallback, with fallback 0 meaning unbounded; under auto, an absent probe or a
probe returning no duration falls back, otherwise the result is
`ceil(duration + buffer)`, falling back again when that is non-positive; a
probed 12.2 s duration with a 5 s buffer resolves to 18. -/
theorem timeout_policy_resolve (p : TimeoutPolicy) :
    (p.strategy ≠ "auto" →
      resolveTimeout p =
        Except.ok (if p.fallbackSeconds = 0 then none else some p.fallbackSeconds)) ∧
    (p.strategy = "auto" → p.probe = none →
      resolveTimeout p =
        Except.ok (if p.fallbackSeconds = 0 then none else some p.fallbackSeconds)) ∧
    (p.strategy = "auto" → p.probe = some (Except.ok none) →
      resolveTimeout p =
        Except.ok (if p.fallbackSeconds = 0 then none else some p.fallbackSeconds)) ∧
    (∀ d : ℚ, p.strategy = "auto" → p.probe = some (Except.ok (some d)) →
      (⌈d + (p.bufferSeconds : ℚ)⌉ ≤ 0 →
        resolveTimeout p =
          Except.ok (if p.fallbackSeconds = 0 then none else some p.fallbackSeconds)) ∧
      (0 < ⌈d + (p.bufferSeconds : ℚ)⌉ →
        resolveTimeout p = Except.ok (some ⌈d + (p.bufferSeconds : ℚ)⌉))) ∧
    (resolveTimeout ⟨"auto", 30, 5, some (Except.ok (some (61 / 5)))⟩ =
      Except.ok (some 18)) := by
  refine ⟨?_, ?_, ?_, ?_, ?_⟩
  · intro h
    simp [resolveTimeout, h]
  · intro h hp
    simp [resolveTimeout, h, hp]
  · intro h hp
    simp [resolveTimeout, h, hp]
  · intro d h hp
    constructor
    · intro hle
      rw [Int.ceil_add_int] at hle
      simp [resolveTimeout, h, hp, hle]
    · intro hpos
      rw [Int.ceil_add_int] at hpos
      have hn : ¬ (⌈d⌉ + p.bufferSeconds ≤ 0) := by omega
      simp [resolveTimeout, h, hp, hn]
  · have h13 : ⌈(61 / 5 : ℚ)⌉ = (13 : Int) := by
      rw [Int.ceil_eq_iff]
      norm_num
    simp [resolveTimeout, h13]

/-- Claim C9 witness: the auto strategy on a 12.2 s probe with buffer 5
resolves to 18, and a fixed strategy with fallback 0 resolves to unbounded. -/
theorem timeout_policy_resolve_witness :
    resolveTimeout ⟨"auto", 30, 5, some (Except.ok (some (61 / 5)))⟩ =
      Except.ok (some 18) ∧
    resolveTimeout ⟨"fixed", 0, 0, none⟩ = Except.ok none := by
  refine ⟨(timeout_policy_resolve ⟨"auto", 30, 5, some (Except.ok (some (61 / 5)))⟩).2.2.2.2, ?_⟩
  have h := (timeout_policy_resolve ⟨"fixed", 0, 0, none⟩).1 (by decide)
  simpa using h

/-- Claim C10 counterexample: an empty JSON object cached record — a
well-formed object missing every required field — makes `get_day` return
absent rather than raise `ApiError`; and a record whose date string is
malformed raises `ValueError`, not `ApiError`. -/
theorem get_day_contract_counterexample :
    getDay (FileContent.json (Json.jobj [])) = Except.ok none ∧
    getDay (FileContent.json (Json.jobj
      [("date", Json.jstr "garbage"), ("madhab", Json.jstr "shafi"),
       ("city", Json.jstr "colombo"), ("times", Json.jobj [])])) =
      Except.error PyErr.valueError := ⟨rfl, rfl⟩

/-- Claim C10 (amended): `get_day` returns absent when the cache has no
record, the record is corrupt or non-object JSON, or the record is the empty
object; a non-empty object missing a required field or carrying a non-mapping
`times` raises `ApiError`; a malformed date string raises `ValueError` — the
`DayPlan | absent` contract is not total over cache contents. -/
theorem get_day_contract :
    (∀ fc, cacheRead fc = none → getDay fc = Except.ok none) ∧
    (getDay (FileContent.json (Json.jobj [])) = Except.ok none) ∧
    (∀ kvs, kvs ≠ [] →
      (jget kvs "date" = none ∨ jget kvs "madhab" = none ∨
        jget kvs "city" = none ∨ jget kvs "times" = none) →
      getDay (FileContent.json (Json.jobj kvs)) = Except.error PyErr.apiError) ∧
    (∀ kvs t, kvs ≠ [] → (jget kvs "date").isSome → (jget kvs "madhab").isSome →
      (jget kvs "city").isSome → jget kvs "times" = some t →
      (∀ inner, t ≠ Json.jobj inner) →
      getDay (FileContent.json (Json.jobj kvs)) = Except.error PyErr.apiError) ∧
    (∀ kvs s inner, kvs ≠ [] → jget kvs "date" = some (Json.jstr s) →
      (jget kvs "madhab").isSome → (jget kvs "city").isSome →
      jget kvs "times" = some (Json.jobj inner) → parseDateISO s = none →
      getDay (FileContent.json (Json.jobj kvs)) = Except.error PyErr.valueError) := by
  have hne : ∀ kvs : List (String × Json), kvs ≠ [] → kvs.isEmpty = false := by
    intro kvs h
    cases kvs with
    | nil => exact absurd rfl h
    | cons a b => rfl
  refine ⟨?_, rfl, ?_, ?_, ?_⟩
  · intro fc h
    simp [getDay, h]
  · intro kvs h hdisj
    simp only [getDay, cacheRead, hne kvs h, Bool.false_eq_true, if_false]
    rcases hdisj with hd | hd | hd | hd <;>
      · cases h1 : jget kvs "date" <;> cases h2 : jget kvs "madhab" <;>
          cases h3 : jget kvs "city" <;> cases h4 : jget kvs "times" <;>
          simp_all [dayPlanFromApi, Except.map]
  · intro kvs t h hd hm hc ht hnobj
    obtain ⟨dv, hdv⟩ := Option.isSome_iff_exists.mp hd
    obtain ⟨mv, hmv⟩ := Option.isSome_iff_exists.mp hm
    obtain ⟨cv, hcv⟩ := Option.isSome_iff_exists.mp hc
    simp only [getDay, cacheRead, hne kvs h, Bool.false_eq_true, if_false]
    cases t <;> simp_all [dayPlanFromApi, Except.map]
  · intro kvs s inner h hd hm hc ht hps
    obtain ⟨mv, hmv⟩ := Option.isSome_iff_exists.mp hm
    obtain ⟨cv, hcv⟩ := Option.isSome_iff_exists.mp hc
    simp only [getDay, cacheRead, hne kvs h, Bool.false_eq_true, if_false]
    simp_all [dayPlanFromApi, Except.map]

/-- Claim C10 witness: a record missing only `times` raises `ApiError`, a
record with `times` as a list raises `ApiError`, and a missing cache file is
absent. -/
theorem get_day_contract_witness :
    getDay (FileContent.json (Json.jobj
      [("date", Json.jstr "2025-01-01"), ("madhab", Json.jstr "shafi"),
       ("city", Json.jstr "colombo")])) = Except.error PyErr.apiError ∧
    getDay (FileContent.json (Json.jobj
      [("date", Json.jstr "2025-01-01"), ("madhab", Json.jstr "shafi"),
       ("city", Json.jstr "colombo"), ("times", Json.jarr [])])) =
      Except.error PyErr.apiError ∧
    getDay FileContent.missing = Except.ok none := by
  refine ⟨?_, ?_, ?_⟩
  · exact get_day_contract.2.2.1 _ (by simp) (by right; right; right; rfl)
  · exact get_day_contract.2.2.2.1 _ (Json.jarr []) (by simp) (by rfl) (by rfl) (by rfl)
      (by rfl) (fun inner h => Json.noConfusion h)
  · exact get_day_contract.1 FileContent.missing rfl

/-- Claim C7 counterexample: when the exclusive slot is already held by
another playback, a `play` call returns false — yet the slot is still held
when that call returns, so the slot is not always free after any `play`
call returns. -/
theorem exclusive_player_lock_counterexample :
    play true ⟨true, some Backend.pipewire, false, true, false, false, 0⟩ =
      (false, true, []) := rfl

/-- Claim C7 (amended): while the slot is held, any second `play` call
returns false immediately with no subprocess call and leaves the slot as it
was; a missing file returns false without touching the slot; and on every
path on which the slot was acquired it is released, so a `play` call that
found the slot free always leaves it free. -/
theorem exclusive_player_slot_discipline :
    (∀ env, play true env = (false, true, [])) ∧
    (∀ lockHeld env, env.fileExists = false → play lockHeld env = (false, lockHeld, [])) ∧
    (∀ env, (play false env).2.1 = false) := by
  refine ⟨?_, ?_, ?_⟩
  · intro env
    by_cases hf : env.fileExists <;> simp [play, hf]
  · intro lockHeld env h
    simp [play, h]
  · intro env
    by_cases hf : env.fileExists
    · by_cases hv : env.setVolumeRaises
      · simp [play, hf, hv]
      · by_cases hm : env.mpg123
        · by_cases hr : env.runRaises <;> simp [play, hf, hv, hm, hr]
        · by_cases hp2 : env.ffplay
          · by_cases hr : env.runRaises <;> simp [play, hf, hv, hm, hp2, hr]
          · simp [play, hf, hv, hm, hp2]
    · simp [play, hf]

/-- Claim C7 witness: a missing file makes `play` return false and leaves a
free slot free. -/
theorem exclusive_player_slot_discipline_witness :
    (⟨false, none, false, false, false, false, 0⟩ : PlayEnv).fileExists = false ∧
    play false ⟨false, none, false, false, false, false, 0⟩ = (false, false, []) :=
  ⟨rfl, exclusive_player_slot_discipline.2.1 false _ rfl⟩

/-- Claim C3: the keepalive obligations the source does meet — the
foreground-start hook leaves `is_running()` false, and the foreground-end
hook never spawns while a configured Bluetooth single-shot check fails —
together with the missing link: `AudioPlayer.play` emits only subprocess
calls and never the `on_foreground_start`/`on_foreground_end` monitor
notifications that `app.py` and `test_audio.py` wire up. -/
theorem keepalive_pause_and_missing_hooks :
    (∀ s, isRunning (pauseForForeground s) = false) ∧
    (∀ lockHeld env, ((play lockHeld env).2.2.all isRunCall) = true) ∧
    (∀ s env,
      ((resumeIfIdle s env).2 && env.bluetoothConfigured && !env.btConnectOk) = false) := by
  have hsv : ∀ b, (setVolumeCalls b).all isRunCall = true := by
    intro b
    cases b with
    | none => rfl
    | some k => cases k <;> rfl
  refine ⟨?_, ?_, ?_⟩
  · intro s
    cases hp : s.process with
    | none => simp [pauseForForeground, isRunning, hp, stopProcess, stopModulator]
    | some alive =>
      cases alive <;>
        simp [pauseForForeground, isRunning, hp, stopProcess, stopModulator]
  · intro lockHeld env
    cases lockHeld
    · by_cases hf : env.fileExists
      · by_cases hv : env.setVolumeRaises
        · simp [play, hf, hv, hsv]
        · by_cases hm : env.mpg123
          · by_cases hr : env.runRaises <;>
              simp [play, hf, hv, hm, hr, List.all_append, hsv, isRunCall]
          · by_cases hp2 : env.ffplay
            · by_cases hr : env.runRaises <;>
                simp [play, hf, hv, hm, hp2, hr, List.all_append, hsv, isRunCall]
            · simp [play, hf, hv, hm, hp2, hsv]
      · simp [play, hf]
    · by_cases hf : env.fileExists <;> simp [play, hf]
  · intro s env
    by_cases hr : isRunning s
    · simp [resumeIfIdle, hr]
    · by_cases hb : env.bluetoothConfigured ∧ ¬ env.btConnectOk
      · simp [resumeIfIdle, hr, hb]
      · by_cases hfe : env.fileExists
        · by_cases hbe : env.haveBackend
          · simp only [resumeIfIdle, hr, hb, hfe, hbe]
            simp only [not_and_or, not_not] at hb
            rcases hb with hb | hb <;> simp [hb]
          · simp [resumeIfIdle, hr, hb, hfe, hbe]
        · simp [resumeIfIdle, hr, hb, hfe]

/-- Claim C8: `handle_event` converts every internal exception to false,
returns false on a failed Bluetooth single-shot check and on an event name
with no audio mapping, and otherwise reports the player's boolean result. -/
theorem handle_event_total (env : HandlerEnv) (eventName : String) :
    (∀ e, handleEventInner env eventName = Except.error e →
      handleEvent env eventName = false) ∧
    (env.btOutcome = Except.ok false → handleEvent env eventName = false) ∧
    (env.btOutcome = Except.ok true → selectAudio env.audio eventName = none →
      handleEvent env eventName = false) ∧
    (∀ b, handleEventInner env eventName = Except.ok b →
      handleEvent env eventName = b) := by
  refine ⟨?_, ?_, ?_, ?_⟩
  · intro e h
    simp [handleEvent, h]
  · intro h
    simp [handleEvent, handleEventInner, h]
  · intro h hsel
    simp [handleEvent, handleEventInner, h, hsel]
  · intro b h
    simp [handleEvent, h]

/-- Claim C8 witness: a raising player, a failed Bluetooth check and an
unmapped event name each yield false. -/
theorem handle_event_total_witness :
    handleEvent
      ⟨Except.ok true,
        ⟨"t.mp3", "f.mp3", "d.mp3", "a.mp3", "m.mp3", "i.mp3",
          "sr.mp3", "ss.mp3", "mid.mp3", "th.mp3", [], 50, 80, 70, 40, 60⟩,
        none, 30, fun _ _ _ => Except.error PyErr.valueError⟩ "fajr" = false ∧
    handleEvent
      ⟨Except.ok false,
        ⟨"t.mp3", "f.mp3", "d.mp3", "a.mp3", "m.mp3", "i.mp3",
          "sr.mp3", "ss.mp3", "mid.mp3", "th.mp3", [], 50, 80, 70, 40, 60⟩,
        none, 30, fun _ _ _ => Except.ok true⟩ "fajr" = false ∧
    handleEvent
      ⟨Except.ok true,
        ⟨"t.mp3", "f.mp3", "d.mp3", "a.mp3", "m.mp3", "i.mp3",
          "sr.mp3", "ss.mp3", "mid.mp3", "th.mp3", [], 50, 80, 70, 40, 60⟩,
        none, 30, fun _ _ _ => Except.ok true⟩ "no_such_event" = false := by
  refine ⟨?_, ?_, ?_⟩
  · exact (handle_event_total _ "fajr").1 PyErr.valueError rfl
  · exact (handle_event_total _ "fajr").2.1 rfl
  · exact (handle_event_total _ "no_such_event").2.2.1 rfl rfl

/-- Shape of every `getLoop` run: the final attempt index exceeds the entry
index and stays within `max_retries + 1`; exactly one sleep of
`base * 2 ^ k` precedes the retry after attempt `k`; and every non-final
attempt ended in a transport failure or a 5xx status. -/
theorem getLoop_master (outs : Nat → AttemptOutcome) (maxR : Nat) (b : ℚ)
    (hb : 0 < b) :
    ∀ fuel attempt sleeps0, attempt + fuel = maxR + 1 → 0 < fuel →
      attempt < (getLoop outs maxR b fuel attempt sleeps0).attempts ∧
      (getLoop outs maxR b fuel attempt sleeps0).attempts ≤ maxR + 1 ∧
      (getLoop outs maxR b fuel attempt sleeps0).sleeps =
        sleeps0 ++ (List.range' attempt
          ((getLoop outs maxR b fuel attempt sleeps0).attempts - 1 - attempt)).map
            (fun k => b * 2 ^ k) ∧
      (∀ k, attempt ≤ k → k + 1 < (getLoop outs maxR b fuel attempt sleeps0).attempts →
        outs k = AttemptOutcome.raised ∨
          ∃ c body, outs k = AttemptOutcome.response c body ∧ 500 ≤ c) := by
  intro fuel
  induction fuel with
  | zero => intro attempt sleeps0 _ h0; exact absurd h0 (by omega)
  | succ fuel ih =>
    intro attempt sleeps0 hsum _
    have hle : attempt ≤ maxR := by omega
    have hterm : ∀ (r : Except GetErr (List (String × Json))),
        attempt < (⟨attempt + 1, sleeps0, r⟩ : GetRun).attempts ∧
        (⟨attempt + 1, sleeps0, r⟩ : GetRun).attempts ≤ maxR + 1 ∧
        (⟨attempt + 1, sleeps0, r⟩ : GetRun).sleeps =
          sleeps0 ++ (List.range' attempt
            ((⟨attempt + 1, sleeps0, r⟩ : GetRun).attempts - 1 - attempt)).map
              (fun k => b * 2 ^ k) ∧
        (∀ k, attempt ≤ k → k + 1 < (⟨attempt + 1, sleeps0, r⟩ : GetRun).attempts →
          outs k = AttemptOutcome.raised ∨
            ∃ c body, outs k = AttemptOutcome.response c body ∧ 500 ≤ c) := by
      intro r
      dsimp only
      refine ⟨by omega, by omega, by simp, ?_⟩
      intro k hk1 hk2
      exact absurd hk2 (by omega)
    have hdelay : (0 : ℚ) < b * 2 ^ attempt := by positivity
    have hstep : attempt < maxR →
        attempt < (getLoop outs maxR b fuel (attempt + 1) (sleeps0 ++ [b * 2 ^ attempt])).attempts ∧
        (getLoop outs maxR b fuel (attempt + 1) (sleeps0 ++ [b * 2 ^ attempt])).attempts ≤ maxR + 1 ∧
        (getLoop outs maxR b fuel (attempt + 1) (sleeps0 ++ [b * 2 ^ attempt])).sleeps =
          sleeps0 ++ (List.range' attempt
            ((getLoop outs maxR b fuel (attempt + 1) (sleeps0 ++ [b * 2 ^ attempt])).attempts
              - 1 - attempt)).map (fun k => b * 2 ^ k) ∧
        (∀ k, attempt ≤ k →
          k + 1 < (getLoop outs maxR b fuel (attempt + 1) (sleeps0 ++ [b * 2 ^ attempt])).attempts →
          (outs attempt = AttemptOutcome.raised ∨
            ∃ c body, outs attempt = AttemptOutcome.response c body ∧ 500 ≤ c) →
          outs k = AttemptOutcome.raised ∨
            ∃ c body, outs k = AttemptOutcome.response c body ∧ 500 ≤ c) := by
      intro hlt
      obtain ⟨ih1, ih2, ih3, ih4⟩ :=
        ih (attempt + 1) (sleeps0 ++ [b * 2 ^ attempt]) (by omega) (by omega)
      refine ⟨by omega, ih2, ?_, ?_⟩
      · rw [ih3]
        have hn : (getLoop outs maxR b fuel (attempt + 1) (sleeps0 ++ [b * 2 ^ attempt])).attempts
            - 1 - attempt =
            ((getLoop outs maxR b fuel (attempt + 1) (sleeps0 ++ [b * 2 ^ attempt])).attempts
              - 1 - (attempt + 1)) + 1 := by omega
        rw [hn]
        simp [List.range']
      · intro k hk1 hk2 hcur
        rcases Nat.lt_or_ge attempt k with hgt | hge
        · exact ih4 k (by omega) hk2
        · have : k = attempt := by omega
          subst this
          exact hcur
    cases houts : outs attempt with
    | raised =>
      by_cases hlt : attempt < maxR
      · obtain ⟨h1, h2, h3, h4⟩ := hstep hlt
        simp only [getLoop, houts, if_pos hlt, if_pos hdelay]
        exact ⟨h1, h2, h3, fun k hk1 hk2 => h4 k hk1 hk2 (Or.inl houts)⟩
      · simp only [getLoop, houts, if_neg hlt]
        exact hterm (Except.error GetErr.requestFailed)
    | response status body =>
      by_cases hst : status = 200
      · subst hst
        simp only [getLoop, houts, ne_eq, not_true_eq_false, Bool.false_eq_true, if_false]
        cases body with
        | invalidJson => exact hterm (Except.error GetErr.invalidJson)
        | nonObject => exact hterm (Except.error GetErr.notObject)
        | object d =>
          dsimp only
          refine ⟨by omega, by omega, by simp, ?_⟩
          intro k hk1 hk2
          exact absurd hk2 (by omega)
      · by_cases hretry : 500 ≤ status ∧ attempt < maxR
        · obtain ⟨h1, h2, h3, h4⟩ := hstep hretry.2
          simp only [getLoop, houts, ne_eq, hst, not_false_eq_true, if_pos hretry,
            if_pos hdelay, ite_true]
          exact ⟨h1, h2, h3, fun k hk1 hk2 =>
            h4 k hk1 hk2 (Or.inr ⟨status, body, houts, hretry.1⟩)⟩
        · simp only [getLoop, houts, ne_eq, hst, not_false_eq_true, if_neg hretry, ite_true]
          exact hterm (Except.error (GetErr.statusError status))

/-- A run whose first `max_retries` attempts all raise transport errors and
whose final attempt returns a non-200 status exhausts its retries (sleeping
once per retry) and raises the last observed error. -/
theorem getLoop_exhaust (outs : Nat → AttemptOutcome) (maxR : Nat) (b : ℚ)
    (hb : 0 < b) (c : Nat) (body : HttpBody) (hc : c ≠ 200)
    (hfin : outs maxR = AttemptOutcome.response c body) :
    ∀ fuel attempt sleeps0, attempt + fuel = maxR + 1 → 0 < fuel →
      (∀ k, attempt ≤ k → k < maxR → outs k = AttemptOutcome.raised) →
      getLoop outs maxR b fuel attempt sleeps0 =
        ⟨maxR + 1,
          sleeps0 ++ (List.range' attempt (maxR - attempt)).map (fun k => b * 2 ^ k),
          Except.error (GetErr.statusError c)⟩ := by
  intro fuel
  induction fuel with
  | zero => intro attempt sleeps0 _ h0; exact absurd h0 (by omega)
  | succ fuel ih =>
    intro attempt sleeps0 hsum _ hpre
    by_cases hA : attempt = maxR
    · subst hA
      simp only [getLoop, hfin, ne_eq, hc, not_false_eq_true, if_pos]
      rw [if_neg (by intro h; omega)]
      simp
    · have hlt : attempt < maxR := by omega
      have houts : outs attempt = AttemptOutcome.raised := hpre attempt le_rfl hlt
      have hdelay : (0 : ℚ) < b * 2 ^ attempt := by positivity
      simp only [getLoop, houts, if_pos hlt, if_pos hdelay]
      rw [ih (attempt + 1) (sleeps0 ++ [b * 2 ^ attempt]) (by omega) (by omega)
        (fun k hk1 hk2 => hpre k (by omega) hk2)]
      have hn : maxR - attempt = (maxR - (attempt + 1)) + 1 := by omega
      rw [hn]
      simp [List.range']

/-- Claim C6: requests are retried only on transport failure or HTTP 5xx —
never on 4xx, which surfaces after a single attempt with zero sleeps; the
k-th retry is preceded by a sleep of `base * 2^(k-1)`; with `max_retries = 2`
two transport failures then a success make exactly 3 attempts with sleeps
`[base, 2*base]`; exhausting retries raises the last observed error. -/
theorem retry_policy (b : ℚ) (hb : 0 < b) (outs : Nat → AttemptOutcome)
    (maxRetries : Nat) :
    (∀ d, outs 0 = AttemptOutcome.raised → outs 1 = AttemptOutcome.raised →
      outs 2 = AttemptOutcome.response 200 (HttpBody.object d) →
      getRun outs 2 b = ⟨3, [b, 2 * b], Except.ok d⟩) ∧
    (∀ c body, outs 0 = AttemptOutcome.response c body → c ≠ 200 → c < 500 →
      getRun outs maxRetries b = ⟨1, [], Except.error (GetErr.statusError c)⟩) ∧
    (∀ k, k + 1 < (getRun outs maxRetries b).attempts →
      outs k = AttemptOutcome.raised ∨
        ∃ c body, outs k = AttemptOutcome.response c body ∧ 500 ≤ c) ∧
    ((getRun outs maxRetries b).sleeps =
      (List.range ((getRun outs maxRetries b).attempts - 1)).map (fun k => b * 2 ^ k)) ∧
    ((getRun outs maxRetries b).attempts ≤ maxRetries + 1) ∧
    (∀ c body, (∀ k, k < maxRetries → outs k = AttemptOutcome.raised) →
      outs maxRetries = AttemptOutcome.response c body → c ≠ 200 →
      getRun outs maxRetries b =
        ⟨maxRetries + 1, (List.range maxRetries).map (fun k => b * 2 ^ k),
          Except.error (GetErr.statusError c)⟩) := by
  obtain ⟨hm1, hm2, hm3, hm4⟩ :=
    getLoop_master outs maxRetries b hb (maxRetries + 1) 0 [] (by omega) (by omega)
  refine ⟨?_, ?_, ?_, ?_, ?_, ?_⟩
  · intro d h0 h1 h2
    have hd0 : (0 : ℚ) < b * 2 ^ 0 := by positivity
    have hd1 : (0 : ℚ) < b * 2 ^ 1 := by positivity
    show getLoop outs 2 b (Nat.succ (Nat.succ (Nat.succ Nat.zero))) 0 [] = _
    simp only [getLoop, h0, h1, h2]
    norm_num [hd0, hd1, hb, mul_comm]
  · intro c body h0 hne h5
    show getLoop outs maxRetries b (maxRetries + 1) 0 [] = _
    simp only [getLoop, h0, ne_eq, hne, not_false_eq_true, if_pos]
    rw [if_neg (by intro h; omega)]
  · intro k hk
    exact hm4 k (Nat.zero_le k) hk
  · simp only [getRun]
    rw [hm3, List.range_eq_range']
    simp
  · exact hm2
  · intro c body hpre hfin hne
    have := getLoop_exhaust outs maxRetries b hb c body hne hfin (maxRetries + 1) 0 []
      (by omega) (by omega) (fun k _ hk => hpre k hk)
    rw [getRun, this, List.range_eq_range']
    simp

/-- Claim C6 witness: base 1, two transport failures then a success under
`max_retries = 2` — 3 attempts, sleeps `[1, 2]`, success payload returned —
and an immediate HTTP 400 — one attempt, no sleeps, an error. -/
theorem retry_policy_witness :
    getRun
      (fun k => if k ≤ 1 then AttemptOutcome.raised
        else AttemptOutcome.response 200 (HttpBody.object [("ok", Json.jbool true)]))
      2 1 = ⟨3, [1, 2], Except.ok [("ok", Json.jbool true)]⟩ ∧
    getRun (fun _ => AttemptOutcome.response 400 HttpBody.invalidJson) 5 1 =
      ⟨1, [], Except.error (GetErr.statusError 400)⟩ := by
  constructor
  · have h := (retry_policy 1 (by norm_num)
      (fun k => if k ≤ 1 then AttemptOutcome.raised
        else AttemptOutcome.response 200 (HttpBody.object [("ok", Json.jbool true)])) 2).1
      [("ok", Json.jbool true)] (by norm_num) (by norm_num) (by norm_num)
    simpa using h
  · have h := (retry_policy 1 (by norm_num)
      (fun _ => AttemptOutcome.response 400 HttpBody.invalidJson) 5).2.1
      400 HttpBody.invalidJson rfl (by norm_num) (by norm_num)
    exact h

/-- Absolute naive datetime of `day` at `mins` minutes past midnight, in
seconds — the value `prayer_times._combine` produces on a valid time string. -/
def dtSec (d : Date) (mins : Nat) : Int :=
  (d.toOrdinal : Int) * 86400 + 60 * mins

theorem strptimeHHMM_ne_empty {s : String} {v : Nat}
    (h : strptimeHHMM s = some v) : s ≠ "" := by
  intro he
  rw [he] at h
  exact Option.noConfusion h

theorem ptCombine_str {d : Date} {s : String} {v : Nat}
    (h : strptimeHHMM s = some v) :
    ptCombine d (Json.jstr s) = Except.ok (dtSec d v) := by
  simp [ptCombine, h, dtSec]

/-- `sunsetFill` never touches a key other than `sunset`. -/
theorem sunsetFill_keys {day : Date} {times times1 : List (String × Json)}
    (h : sunsetFill day times = Except.ok times1) :
    ∀ k, k ≠ "sunset" → jget times1 k = jget times k := by
  intro k hk
  by_cases hs : (jget times "sunset").isNone
  · cases hmg : jget times "maghrib" with
    | none =>
      simp only [sunsetFill, hs, if_true, hmg] at h
      cases h
      rfl
    | some mg =>
      by_cases ht : mg.truthy
      · cases hpc : ptCombine day mg with
        | error e => simp [sunsetFill, hs, hmg, ht, hpc] at h
        | ok s =>
          simp only [sunsetFill, hs, if_true, hmg, ht, hpc] at h
          cases h
          exact jget_jset_ne _ _ _ _ hk
      · simp only [sunsetFill, hs, if_true, hmg, ht] at h
        rw [if_neg (by simp [ht])] at h
        cases h
        rfl
  · simp only [sunsetFill, hs, Bool.false_eq_true, if_false] at h
    cases h
    rfl

/-- When `sunset` is absent and `maghrib` is a valid time string, `sunsetFill`
stores `maghrib − 20 minutes` under `sunset`. -/
theorem sunsetFill_value {day : Date} {times times1 : List (String × Json)}
    {m : String} {mins : Nat}
    (h : sunsetFill day times = Except.ok times1)
    (hsun : jget times "sunset" = none)
    (hm : jget times "maghrib" = some (Json.jstr m))
    (hp : strptimeHHMM m = some mins) :
    jget times1 "sunset" = some (Json.jstr (fmtHM (dtSec day mins - 1200))) := by
  have hmne : m ≠ "" := strptimeHHMM_ne_empty hp
  have ht : (Json.jstr m).truthy = true := by simp [Json.truthy, hmne]
  simp only [sunsetFill, hsun, Option.isNone_none, if_true, hm, ht,
    ptCombine_str hp] at h
  cases h
  exact jget_jset_same _ _ _

/-- Pairing of `_derive_missing_extras`: each plan of the batch is derived
against its immediate successor; the last against none. -/
theorem deriveMissingExtras_pairs :
    ∀ (ps : List DayPlan) (qs : List DayPlan),
      deriveMissingExtras ps = Except.ok qs →
      (∀ i pi pni, ps.get? i = some pi → ps.get? (i + 1) = some pni →
        ∃ qi, qs.get? i = some qi ∧ deriveExtras pi (some pni) = Except.ok qi) ∧
      (∀ i pi, ps.get? i = some pi → ps.get? (i + 1) = none →
        ∃ qi, qs.get? i = some qi ∧ deriveExtras pi none = Except.ok qi) := by
  intro ps
  induction ps with
  | nil =>
    intro qs h
    constructor
    · intro i pi pni hp1
      simp at hp1
    · intro i pi hp1
      simp at hp1
  | cons p rest ih =>
    intro qs h
    cases rest with
    | nil =>
      cases hd : deriveExtras p none with
      | error e => simp [deriveMissingExtras, hd] at h
      | ok q =>
        simp only [deriveMissingExtras, hd] at h
        cases h
        constructor
        · intro i pi pni hp1 hp2
          cases i with
          | zero => simp at hp2
          | succ j => simp at hp1
        · intro i pi hp1 hp2
          cases i with
          | zero =>
            simp only [List.get?] at hp1
            cases hp1
            exact ⟨q, rfl, hd⟩
          | succ j => simp at hp1
    | cons np rest2 =>
      cases hd : deriveExtras p (some np) with
      | error e => simp [deriveMissingExtras, hd] at h
      | ok q =>
        cases hrest : deriveMissingExtras (np :: rest2) with
        | error e => simp [deriveMissingExtras, hd, hrest] at h
        | ok qs2 =>
          simp only [deriveMissingExtras, hd, hrest] at h
          cases h
          obtain ⟨ih1, ih2⟩ := ih qs2 hrest
          constructor
          · intro i pi pni hp1 hp2
            cases i with
            | zero =>
              simp only [List.get?] at hp1 hp2
              cases hp1
              cases hp2
              exact ⟨q, rfl, hd⟩
            | succ j =>
              obtain ⟨qi, hq1, hq2⟩ := ih1 j pi pni hp1 hp2
              exact ⟨qi, hq1, hq2⟩
          · intro i pi hp1 hp2
            cases i with
            | zero => simp at hp2
            | succ j =>
              obtain ⟨qi, hq1, hq2⟩ := ih2 j pi hp1 hp2
              exact ⟨qi, hq1, hq2⟩

/-- Claim C2: for a pair of consecutive plans with valid `maghrib` on day N
and `fajr` on day N+1, with `night = fajr(N+1) − maghrib(N)` on naive local
datetimes: a non-positive night skips the midnight/tahajjud derivation;
otherwise `midnight = maghrib + night/2` and `tahajjud = fajr − night/3` are
filled only where absent and existing values are never overwritten;
`sunset = maghrib − 20 min` is filled when absent; a last day with no
successor gets no midnight/tahajjud; in the batch each plan is paired with
its immediate successor; and concretely maghrib 18:00 with next-day fajr
05:00 yields sunset 17:40, midnight 23:30 and tahajjud 01:20. -/
theorem derivation_correct (p np : DayPlan) (m f : String) (mt ft : Nat)
    (times1 : List (String × Json))
    (hm : jget p.times "maghrib" = some (Json.jstr m))
    (hmp : strptimeHHMM m = some mt)
    (hf : jget np.times "fajr" = some (Json.jstr f))
    (hfp : strptimeHHMM f = some ft)
    (h1 : sunsetFill p.date p.times = Except.ok times1) :
    (deriveExtras p none = Except.ok { p with times := times1 }) ∧
    (jget p.times "sunset" = none →
      jget times1 "sunset" = some (Json.jstr (fmtHM (dtSec p.date mt - 1200)))) ∧
    (∀ k, k ≠ "sunset" → jget times1 k = jget p.times k) ∧
    (dtSec np.date ft - dtSec p.date mt ≤ 0 →
      deriveExtras p (some np) = Except.ok { p with times := times1 }) ∧
    (0 < dtSec np.date ft - dtSec p.date mt →
      ∃ times3, deriveExtras p (some np) = Except.ok { p with times := times3 } ∧
        (jget times1 "midnight" = none →
          jget times3 "midnight" = some (Json.jstr (fmtHM
            (dtSec p.date mt + (dtSec np.date ft - dtSec p.date mt) / 2)))) ∧
        (∀ v, jget times1 "midnight" = some v → jget times3 "midnight" = some v) ∧
        (jget times1 "tahajjud" = none →
          jget times3 "tahajjud" = some (Json.jstr (fmtHM
            (dtSec np.date ft - (dtSec np.date ft - dtSec p.date mt) / 3)))) ∧
        (∀ v, jget times1 "tahajjud" = some v → jget times3 "tahajjud" = some v)) ∧
    (∀ ps qs i pi pni, deriveMissingExtras ps = Except.ok qs →
      ps.get? i = some pi → ps.get? (i + 1) = some pni →
      ∃ qi, qs.get? i = some qi ∧ deriveExtras pi (some pni) = Except.ok qi) ∧
    (∀ ps qs i pi, deriveMissingExtras ps = Except.ok qs →
      ps.get? i = some pi → ps.get? (i + 1) = none →
      ∃ qi, qs.get? i = some qi ∧ deriveExtras pi none = Except.ok qi) ∧
    (deriveExtras
        ⟨⟨2025, 1, 1⟩, Json.jstr "shafi", Json.jstr "colombo",
          [("maghrib", Json.jstr "18:00")]⟩
        (some ⟨⟨2025, 1, 2⟩, Json.jstr "shafi", Json.jstr "colombo",
          [("fajr", Json.jstr "05:00")]⟩) =
      Except.ok ⟨⟨2025, 1, 1⟩, Json.jstr "shafi", Json.jstr "colombo",
        [("maghrib", Json.jstr "18:00"), ("sunset", Json.jstr "17:40"),
         ("midnight", Json.jstr "23:30"), ("tahajjud", Json.jstr "01:20")]⟩) := by
  have hmne : m ≠ "" := strptimeHHMM_ne_empty hmp
  have hfne : f ≠ "" := strptimeHHMM_ne_empty hfp
  have hm1 : jget times1 "maghrib" = some (Json.jstr m) := by
    rw [sunsetFill_keys h1 "maghrib" (by decide)]
    exact hm
  have htm : optTruthy (jget times1 "maghrib") = true := by
    simp [hm1, optTruthy, Json.truthy, hmne]
  have htf : optTruthy (jget np.times "fajr") = true := by
    simp [hf, optTruthy, Json.truthy, hfne]
  have hgm : (jget times1 "maghrib").getD Json.jnull = Json.jstr m := by
    simp [hm1]
  have hgf : (jget np.times "fajr").getD Json.jnull = Json.jstr f := by
    simp [hf]
  refine ⟨?_, ?_, sunsetFill_keys h1, ?_, ?_, (fun ps qs i pi pni h hp1 hp2 =>
      (deriveMissingExtras_pairs ps qs h).1 i pi pni hp1 hp2),
    (fun ps qs i pi h hp1 hp2 => (deriveMissingExtras_pairs ps qs h).2 i pi hp1 hp2), ?_⟩
  · simp [deriveExtras, h1]
  · intro hsun
    exact sunsetFill_value h1 hsun hm hmp
  · intro hng
    by_cases hboth : (jget times1 "midnight").isSome ∧ (jget times1 "tahajjud").isSome
    · simp [deriveExtras, h1, hboth]
    · simp only [deriveExtras, h1, hboth, if_false]
      rw [hgm, hgf, ptCombine_str hmp, ptCombine_str hfp]
      simp [hng]
  · intro hng
    by_cases hboth : (jget times1 "midnight").isSome ∧ (jget times1 "tahajjud").isSome
    · refine ⟨times1, by simp [deriveExtras, h1, hboth], ?_, ?_, ?_, ?_⟩
      · intro hmid
        rw [hmid] at hboth
        simp at hboth
      · intro v hv
        exact hv
      · intro hta
        rw [hta] at hboth
        simp at hboth
      · intro v hv
        exact hv
    · have hng2 : ¬ (dtSec np.date ft - dtSec p.date mt ≤ 0) := by omega
      refine ⟨(if (jget (if (jget times1 "midnight").isNone then
            jset times1 "midnight" (Json.jstr (fmtHM
              (dtSec p.date mt + (dtSec np.date ft - dtSec p.date mt) / 2)))
          else times1) "tahajjud").isNone then
        jset (if (jget times1 "midnight").isNone then
            jset times1 "midnight" (Json.jstr (fmtHM
              (dtSec p.date mt + (dtSec np.date ft - dtSec p.date mt) / 2)))
          else times1) "tahajjud" (Json.jstr (fmtHM
            (dtSec np.date ft - (dtSec np.date ft - dtSec p.date mt) / 3)))
        else (if (jget times1 "midnight").isNone then
            jset times1 "midnight" (Json.jstr (fmtHM
              (dtSec p.date mt + (dtSec np.date ft - dtSec p.date mt) / 2)))
          else times1)), ?_, ?_, ?_, ?_, ?_⟩
      · simp only [deriveExtras, h1, hboth, if_false]
        rw [hgm, hgf, ptCombine_str hmp, ptCombine_str hfp]
        rw [if_neg (show ¬ ¬ (optTruthy (jget times1 "maghrib") = true ∧
            optTruthy (jget np.times "fajr") = true) by simp [htm, htf])]
        dsimp only
        rw [if_neg hng2]
      · intro hmid
        simp only [hmid, Option.isNone_none, if_true]
        by_cases hta : (jget (jset times1 "midnight" (Json.jstr (fmtHM
            (dtSec p.date mt + (dtSec np.date ft - dtSec p.date mt) / 2))))
            "tahajjud").isNone
        · rw [if_pos hta]
          rw [jget_jset_ne _ _ _ _ (by decide), jget_jset_same]
        · rw [if_neg hta]
          exact jget_jset_same _ _ _
      · intro v hv
        simp only [hv, Option.isNone_some, Bool.false_eq_true, if_false]
        by_cases hta : (jget times1 "tahajjud").isNone
        · rw [if_pos hta]
          rw [jget_jset_ne _ _ _ _ (by decide)]
          exact hv
        · rw [if_neg hta]
          exact hv
      · intro hta
        have hta2 : (jget (if (jget times1 "midnight").isNone then
            jset times1 "midnight" (Json.jstr (fmtHM
              (dtSec p.date mt + (dtSec np.date ft - dtSec p.date mt) / 2)))
          else times1) "tahajjud").isNone := by
          by_cases hmid : (jget times1 "midnight").isNone
          · rw [if_pos hmid, jget_jset_ne _ _ _ _ (by decide), hta]
            rfl
          · rw [if_neg hmid, hta]
            rfl
        rw [if_pos hta2]
        exact jget_jset_same _ _ _
      · intro v hv
        by_cases hmid : (jget times1 "midnight").isNone
        · rw [if_pos hmid]
          have hv2 : jget (jset times1 "midnight" (Json.jstr (fmtHM
              (dtSec p.date mt + (dtSec np.date ft - dtSec p.date mt) / 2))))
              "tahajjud" = some v := by
            rw [jget_jset_ne _ _ _ _ (by decide)]
            exact hv
          rw [if_neg (by simp [hv2])]
          exact hv2
        · rw [if_neg hmid]
          rw [if_neg (by simp [hv])]
          exact hv
  · rfl

/-- Claim C2 witness: the 18:00 maghrib / next-day 05:00 fajr pair yields
sunset 17:40, midnight 23:30, tahajjud 01:20; with no successor only sunset
is derived; a same-day 17:00 "next fajr" gives a non-positive night, so
derivation of the pair is skipped; and a plan whose API already supplied
midnight 23:00 (tahajjud absent) keeps its midnight untouched while tahajjud
is still filled with 01:20. -/
theorem derivation_correct_witness :
    deriveExtras
        ⟨⟨2025, 1, 1⟩, Json.jstr "shafi", Json.jstr "colombo",
          [("maghrib", Json.jstr "18:00")]⟩ none =
      Except.ok ⟨⟨2025, 1, 1⟩, Json.jstr "shafi", Json.jstr "colombo",
        [("maghrib", Json.jstr "18:00"), ("sunset", Json.jstr "17:40")]⟩ ∧
    deriveExtras
        ⟨⟨2025, 1, 1⟩, Json.jstr "shafi", Json.jstr "colombo",
          [("maghrib", Json.jstr "18:00")]⟩
        (some ⟨⟨2025, 1, 1⟩, Json.jstr "shafi", Json.jstr "colombo",
          [("fajr", Json.jstr "17:00")]⟩) =
      Except.ok ⟨⟨2025, 1, 1⟩, Json.jstr "shafi", Json.jstr "colombo",
        [("maghrib", Json.jstr "18:00"), ("sunset", Json.jstr "17:40")]⟩ ∧
    deriveExtras
        ⟨⟨2025, 1, 1⟩, Json.jstr "shafi", Json.jstr "colombo",
          [("maghrib", Json.jstr "18:00")]⟩
        (some ⟨⟨2025, 1, 2⟩, Json.jstr "shafi", Json.jstr "colombo",
          [("fajr", Json.jstr "05:00")]⟩) =
      Except.ok ⟨⟨2025, 1, 1⟩, Json.jstr "shafi", Json.jstr "colombo",
        [("maghrib", Json.jstr "18:00"), ("sunset", Json.jstr "17:40"),
         ("midnight", Json.jstr "23:30"), ("tahajjud", Json.jstr "01:20")]⟩ ∧
    (∃ times3,
      deriveExtras
          ⟨⟨2025, 1, 1⟩, Json.jstr "shafi", Json.jstr "colombo",
            [("maghrib", Json.jstr "18:00"), ("midnight", Json.jstr "23:00")]⟩
          (some ⟨⟨2025, 1, 2⟩, Json.jstr "shafi", Json.jstr "colombo",
            [("fajr", Json.jstr "05:00")]⟩) =
        Except.ok ⟨⟨2025, 1, 1⟩, Json.jstr "shafi", Json.jstr "colombo", times3⟩ ∧
      jget times3 "midnight" = some (Json.jstr "23:00") ∧
      jget times3 "tahajjud" = some (Json.jstr "01:20")) := by
  have hlow := derivation_correct
    ⟨⟨2025, 1, 1⟩, Json.jstr "shafi", Json.jstr "colombo",
      [("maghrib", Json.jstr "18:00")]⟩
    ⟨⟨2025, 1, 1⟩, Json.jstr "shafi", Json.jstr "colombo",
      [("fajr", Json.jstr "17:00")]⟩
    "18:00" "17:00" 1080 1020
    [("maghrib", Json.jstr "18:00"), ("sunset", Json.jstr "17:40")]
    rfl rfl rfl rfl rfl
  have hmain := derivation_correct
    ⟨⟨2025, 1, 1⟩, Json.jstr "shafi", Json.jstr "colombo",
      [("maghrib", Json.jstr "18:00")]⟩
    ⟨⟨2025, 1, 2⟩, Json.jstr "shafi", Json.jstr "colombo",
      [("fajr", Json.jstr "05:00")]⟩
    "18:00" "05:00" 1080 300
    [("maghrib", Json.jstr "18:00"), ("sunset", Json.jstr "17:40")]
    rfl rfl rfl rfl rfl
  have hmid := derivation_correct
    ⟨⟨2025, 1, 1⟩, Json.jstr "shafi", Json.jstr "colombo",
      [("maghrib", Json.jstr "18:00"), ("midnight", Json.jstr "23:00")]⟩
    ⟨⟨2025, 1, 2⟩, Json.jstr "shafi", Json.jstr "colombo",
      [("fajr", Json.jstr "05:00")]⟩
    "18:00" "05:00" 1080 300
    [("maghrib", Json.jstr "18:00"), ("midnight", Json.jstr "23:00"),
     ("sunset", Json.jstr "17:40")]
    rfl rfl rfl rfl rfl
  refine ⟨hlow.1, hlow.2.2.2.1 (by decide), hmain.2.2.2.2.2.2.2, ?_⟩
  obtain ⟨times3, heq, hmidfill, hmidpres, htafill, htapres⟩ :=
    hmid.2.2.2.2.1 (by decide)
  exact ⟨times3, heq, hmidpres (Json.jstr "23:00") rfl, htafill rfl⟩

/-! ### Scheduler invariants -/

theorem addJob_forall {P : Job → Prop} {jobs : List Job} {j : Job}
    (hall : ∀ o ∈ jobs, P o) (hj : P j) : ∀ o ∈ addJob jobs j, P o := by
  intro o ho
  unfold addJob at ho
  by_cases h : jobs.any (fun o => o.id == j.id)
  · rw [if_pos h] at ho
    obtain ⟨x, hx, hxo⟩ := List.mem_map.mp ho
    by_cases hid : x.id == j.id
    · rw [if_pos hid] at hxo
      rw [← hxo]
      exact hj
    · rw [if_neg hid] at hxo
      rw [← hxo]
      exact hall x hx
  · rw [if_neg h] at ho
    rcases List.mem_append.mp ho with h1 | h2
    · exact hall o h1
    · rw [List.mem_singleton.mp h2]
      exact hj

/-- `add_job` with an existing id replaces in place: the id multiset is
unchanged. -/
theorem addJob_map_id_of_mem {jobs : List Job} {j : Job}
    (h : jobs.any (fun o => o.id == j.id) = true) :
    (addJob jobs j).map Job.id = jobs.map Job.id := by
  unfold addJob
  rw [if_pos h, List.map_map]
  apply List.map_congr_left
  intro o _
  by_cases hid : o.id == j.id
  · simp only [Function.comp_apply, if_pos hid]
    exact (eq_of_beq hid).symm
  · simp only [Function.comp_apply, if_neg hid]

theorem addJob_nodup {jobs : List Job} {j : Job}
    (hnd : (jobs.map Job.id).Nodup) : ((addJob jobs j).map Job.id).Nodup := by
  by_cases h : jobs.any (fun o => o.id == j.id)
  · rw [addJob_map_id_of_mem h]
    exact hnd
  · unfold addJob
    rw [if_neg h, List.map_append]
    rw [List.nodup_append]
    refine ⟨hnd, List.nodup_singleton _, ?_⟩
    intro a ha hb
    rw [List.map_singleton, List.mem_singleton] at hb
    subst hb
    obtain ⟨o, ho, hoid⟩ := List.mem_map.mp ha
    rw [List.any_eq_true] at h
    exact h ⟨o, ho, by simp [hoid]⟩

theorem addJob_present_self (jobs : List Job) (j : Job) :
    ∃ o ∈ addJob jobs j, o.id = j.id := by
  unfold addJob
  by_cases h : jobs.any (fun o => o.id == j.id)
  · rw [if_pos h]
    rw [List.any_eq_true] at h
    obtain ⟨x, hx, hbeq⟩ := h
    exact ⟨j, List.mem_map.mpr ⟨x, hx, by rw [if_pos hbeq]⟩, rfl⟩
  · rw [if_neg h]
    exact ⟨j, List.mem_append.mpr (Or.inr (List.mem_singleton.mpr rfl)), rfl⟩

theorem addJob_present_mono {jobs : List Job} {x : String} (j : Job)
    (h : ∃ o ∈ jobs, o.id = x) : ∃ o ∈ addJob jobs j, o.id = x := by
  obtain ⟨o, ho, hid⟩ := h
  unfold addJob
  by_cases ha : jobs.any (fun o => o.id == j.id)
  · rw [if_pos ha]
    by_cases hid2 : o.id == j.id
    · refine ⟨j, List.mem_map.mpr ⟨o, ho, by rw [if_pos hid2]⟩, ?_⟩
      rw [← eq_of_beq hid2]
      exact hid
    · exact ⟨o, List.mem_map.mpr ⟨o, ho, by rw [if_neg hid2]⟩, hid⟩
  · rw [if_neg ha]
    exact ⟨o, List.mem_append.mpr (Or.inl ho), hid⟩

theorem addEventJobs_forall {P : Job → Prop} (now : Int) (day : Date) :
    ∀ (L : List (String × Json)) (jobs : List Job),
      (∀ o ∈ jobs, P o) →
      (∀ name v t, (name, v) ∈ L → schedCombineJson day v = Except.ok t → now < t →
        P ⟨eventJobId name day, t, name⟩) →
      ∀ o ∈ (addEventJobs now day L jobs).1, P o := by
  intro L
  induction L with
  | nil =>
    intro jobs hbase _ o ho
    exact hbase o ho
  | cons p rest ih =>
    obtain ⟨name, v⟩ := p
    intro jobs hbase hnew o ho
    cases hc : schedCombineJson day v with
    | error e =>
      simp only [addEventJobs, hc] at ho
      exact hbase o ho
    | ok t =>
      by_cases hle : t ≤ now
      · simp only [addEventJobs, hc, if_pos hle] at ho
        exact ih jobs hbase
          (fun n2 v2 t2 hm2 => hnew n2 v2 t2 (List.mem_cons_of_mem _ hm2)) o ho
      · simp only [addEventJobs, hc, if_neg hle] at ho
        have hP : P ⟨eventJobId name day, t, name⟩ :=
          hnew name v t (List.mem_cons_self _ _) hc (lt_of_not_le hle)
        exact ih _ (addJob_forall hbase hP)
          (fun n2 v2 t2 hm2 => hnew n2 v2 t2 (List.mem_cons_of_mem _ hm2)) o ho

theorem addQuranJobs_forall {P : Job → Prop} (now : Int) (day : Date) :
    ∀ (L : List String) (jobs : List Job),
      (∀ o ∈ jobs, P o) →
      (∀ q t, q ∈ L → schedCombineStr day q = Except.ok t → now < t →
        P ⟨quranJobId day q, t, "quran@" ++ q⟩) →
      ∀ o ∈ (addQuranJobs now day L jobs).1, P o := by
  intro L
  induction L with
  | nil =>
    intro jobs hbase _ o ho
    exact hbase o ho
  | cons q rest ih =>
    intro jobs hbase hnew o ho
    cases hc : schedCombineStr day q with
    | error e =>
      simp only [addQuranJobs, hc] at ho
      exact hbase o ho
    | ok t =>
      by_cases hle : t ≤ now
      · simp only [addQuranJobs, hc, if_pos hle] at ho
        exact ih jobs hbase
          (fun q2 t2 hm2 => hnew q2 t2 (List.mem_cons_of_mem _ hm2)) o ho
      · simp only [addQuranJobs, hc, if_neg hle] at ho
        have hP : P ⟨quranJobId day q, t, "quran@" ++ q⟩ :=
          hnew q t (List.mem_cons_self _ _) hc (lt_of_not_le hle)
        exact ih _ (addJob_forall hbase hP)
          (fun q2 t2 hm2 => hnew q2 t2 (List.mem_cons_of_mem _ hm2)) o ho

/-- The main preservation principle for `schedule_day`: a property holding on
the kept old jobs and on every job the call adds holds on the whole result. -/
theorem scheduleDay_forall {P : Job → Prop} (now : Int) (jobs : List Job)
    (plan : DayPlan) (quranTimes : List String)
    (hkeep : ∀ o ∈ jobs, strEndsWith o.id plan.date.ymdCompact = false → P o)
    (hevent : ∀ name v t, (name, v) ∈ plan.times →
      schedCombineJson plan.date v = Except.ok t → now < t →
      P ⟨eventJobId name plan.date, t, name⟩)
    (hquran : ∀ q t, q ∈ quranTimes → schedCombineStr plan.date q = Except.ok t →
      now < t → P ⟨quranJobId plan.date q, t, "quran@" ++ q⟩) :
    ∀ o ∈ (scheduleDay now jobs plan quranTimes).1, P o := by
  intro o ho
  simp only [scheduleDay] at ho
  have hbase : ∀ o ∈ removeJobsForDate jobs plan.date, P o := by
    intro o2 ho2
    unfold removeJobsForDate at ho2
    obtain ⟨hmem, hpred⟩ := List.mem_filter.mp ho2
    exact hkeep o2 hmem (by simpa using hpred)
  have hevent2 : ∀ name v t,
      (name, v) ∈ plan.times.insertionSort (fun a b => strLe a.1 b.1) →
      schedCombineJson plan.date v = Except.ok t → now < t →
      P ⟨eventJobId name plan.date, t, name⟩ := by
    intro name v t hm
    exact hevent name v t ((List.perm_insertionSort _ _).mem_iff.mp hm)
  have hq2 : ∀ q t, q ∈ quranTimes.insertionSort (fun a b => strLe a b) →
      schedCombineStr plan.date q = Except.ok t → now < t →
      P ⟨quranJobId plan.date q, t, "quran@" ++ q⟩ := by
    intro q t hm
    exact hquran q t ((List.perm_insertionSort _ _).mem_iff.mp hm)
  have hev := addEventJobs_forall now plan.date
    (plan.times.insertionSort (fun a b => strLe a.1 b.1))
    (removeJobsForDate jobs plan.date) hbase hevent2
  cases heq : addEventJobs now plan.date
      (plan.times.insertionSort (fun a b => strLe a.1 b.1))
      (removeJobsForDate jobs plan.date) with
  | mk js1 oe =>
    rw [heq] at ho hev
    cases oe with
    | some e => exact hev o ho
    | none => exact addQuranJobs_forall now plan.date _ js1 hev hq2 o ho

/-- Claim C5: `schedule_day` never adds a job whose run time is not strictly
in the future — every job in the resulting store either survives from the
prior store or fires strictly after the injected clock's now. -/
theorem no_past_jobs (now : Int) (jobs : List Job) (plan : DayPlan)
    (quranTimes : List String) :
    ∀ j ∈ (scheduleDay now jobs plan quranTimes).1, j ∈ jobs ∨ now < j.runAt := by
  refine scheduleDay_forall now jobs plan quranTimes ?_ ?_ ?_
  · intro o ho _
    exact Or.inl ho
  · intro name v t _ _ hlt
    exact Or.inr hlt
  · intro q t _ _ hlt
    exact Or.inr hlt

/-- Claim C5 witness: a plan with one past and one future time schedules only
the future one; the single resulting job is new and strictly future. -/
theorem no_past_jobs_witness :
    (⟨"event_dhuhr_20250101", 1064523600, "dhuhr"⟩ : Job) ∈
      (scheduleDay (1064523480)
        []
        ⟨⟨2025, 1, 1⟩, Json.jstr "shafi", Json.jstr "colombo",
          [("dhuhr", Json.jstr "12:00"), ("fajr", Json.jstr "05:00")]⟩ []).1 ∧
    ((⟨"event_dhuhr_20250101", 1064523600, "dhuhr"⟩ : Job) ∈ ([] : List Job) ∨
      (1064523480 : Int) < 1064523600) := by
  constructor
  · decide
  · exact no_past_jobs 1064523480 []
      ⟨⟨2025, 1, 1⟩, Json.jstr "shafi", Json.jstr "colombo",
        [("dhuhr", Json.jstr "12:00"), ("fajr", Json.jstr "05:00")]⟩ []
      ⟨"event_dhuhr_20250101", 1064523600, "dhuhr"⟩ (by decide)

/-- Claim C1 counterexample: a Quran job `quran_20250101_0630` from an
earlier `schedule_day` call for 2025-01-01 survives a new `schedule_day` for
that same date untouched (its id ends in the time, not the date, so the
suffix-based cleanup never matches it), even though the new plan re-adds
nothing. -/
theorem stale_cleanup_counterexample :
    scheduleDay 0 [⟨"quran_20250101_0630", 1064523270, "quran@06:30"⟩]
      ⟨⟨2025, 1, 1⟩, Json.jstr "shafi", Json.jstr "colombo", []⟩ [] =
      ([⟨"quran_20250101_0630", 1064523270, "quran@06:30"⟩], none) ∧
    quranJobId ⟨2025, 1, 1⟩ "06:30" = "quran_20250101_0630" := ⟨rfl, rfl⟩

/-- Claim C1 (amended): `schedule_day` first removes exactly the jobs whose
id ends with the date's `YYYYMMDD` — which covers every named-event job
`event_<name>_<YYYYMMDD>` for the date but not the Quran jobs
`quran_<YYYYMMDD>_<HHMM>` — so any job in the result whose id ends with the
date suffix was added by this very call; Quran jobs for the date survive
unless re-added under the same id. -/
theorem stale_cleanup (now : Int) (jobs : List Job) (plan : DayPlan)
    (quranTimes : List String) :
    ∀ j ∈ (scheduleDay now jobs plan quranTimes).1,
      strEndsWith j.id plan.date.ymdCompact = true →
      (∃ nv ∈ plan.times, j.id = eventJobId nv.1 plan.date) ∨
      (∃ q ∈ quranTimes, j.id = quranJobId plan.date q) := by
  refine scheduleDay_forall now jobs plan quranTimes ?_ ?_ ?_
  · intro o _ hfalse htrue
    rw [hfalse] at htrue
    exact Bool.noConfusion htrue
  · intro name v t hm _ _ _
    exact Or.inl ⟨(name, v), hm, rfl⟩
  · intro q t hm _ _ _
    exact Or.inr ⟨q, hm, rfl⟩

/-- Claim C1 witness: the freshly scheduled `event_dhuhr_20250101` job ends
with the date suffix and is accounted for by the plan's own `dhuhr` entry. -/
theorem stale_cleanup_witness :
    (∃ nv ∈ [("dhuhr", Json.jstr "12:00")],
      ("event_dhuhr_20250101" : String) = eventJobId nv.1 ⟨2025, 1, 1⟩) ∨
    (∃ q ∈ ([] : List String),
      ("event_dhuhr_20250101" : String) = quranJobId ⟨2025, 1, 1⟩ q) := by
  have h := stale_cleanup 1064522880 []
    ⟨⟨2025, 1, 1⟩, Json.jstr "shafi", Json.jstr "colombo",
      [("dhuhr", Json.jstr "12:00")]⟩ []
    ⟨"event_dhuhr_20250101", 1064523600, "dhuhr"⟩ (by decide) (by decide)
  exact h

theorem addEventJobs_ok (now : Int) (day : Date) :
    ∀ (L : List (String × Json)) (jobs : List Job),
      (∀ p ∈ L, ∃ t, schedCombineJson day p.2 = Except.ok t) →
      (addEventJobs now day L jobs).2 = none := by
  intro L
  induction L with
  | nil => intro jobs _; rfl
  | cons p rest ih =>
    obtain ⟨name, v⟩ := p
    intro jobs hv
    obtain ⟨t, hc⟩ := hv (name, v) (List.mem_cons_self _ _)
    have hrest := fun p hp => hv p (List.mem_cons_of_mem _ hp)
    by_cases hle : t ≤ now
    · simp only [addEventJobs, hc, if_pos hle]
      exact ih jobs hrest
    · simp only [addEventJobs, hc, if_neg hle]
      exact ih _ hrest

theorem addQuranJobs_ok (now : Int) (day : Date) :
    ∀ (L : List String) (jobs : List Job),
      (∀ q ∈ L, ∃ t, schedCombineStr day q = Except.ok t) →
      (addQuranJobs now day L jobs).2 = none := by
  intro L
  induction L with
  | nil => intro jobs _; rfl
  | cons q rest ih =>
    intro jobs hv
    obtain ⟨t, hc⟩ := hv q (List.mem_cons_self _ _)
    have hrest := fun p hp => hv p (List.mem_cons_of_mem _ hp)
    by_cases hle : t ≤ now
    · simp only [addQuranJobs, hc, if_pos hle]
      exact ih jobs hrest
    · simp only [addQuranJobs, hc, if_neg hle]
      exact ih _ hrest

theorem addEventJobs_nodup (now : Int) (day : Date) :
    ∀ (L : List (String × Json)) (jobs : List Job),
      (jobs.map Job.id).Nodup → (((addEventJobs now day L jobs).1).map Job.id).Nodup := by
  intro L
  induction L with
  | nil => intro jobs h; exact h
  | cons p rest ih =>
    obtain ⟨name, v⟩ := p
    intro jobs h
    cases hc : schedCombineJson day v with
    | error e => simpa only [addEventJobs, hc] using h
    | ok t =>
      by_cases hle : t ≤ now
      · simp only [addEventJobs, hc, if_pos hle]
        exact ih jobs h
      · simp only [addEventJobs, hc, if_neg hle]
        exact ih _ (addJob_nodup h)

theorem addQuranJobs_nodup (now : Int) (day : Date) :
    ∀ (L : List String) (jobs : List Job),
      (jobs.map Job.id).Nodup → (((addQuranJobs now day L jobs).1).map Job.id).Nodup := by
  intro L
  induction L with
  | nil => intro jobs h; exact h
  | cons q rest ih =>
    intro jobs h
    cases hc : schedCombineStr day q with
    | error e => simpa only [addQuranJobs, hc] using h
    | ok t =>
      by_cases hle : t ≤ now
      · simp only [addQuranJobs, hc, if_pos hle]
        exact ih jobs h
      · simp only [addQuranJobs, hc, if_neg hle]
        exact ih _ (addJob_nodup h)

theorem addEventJobs_mono (now : Int) (day : Date) (x : String) :
    ∀ (L : List (String × Json)) (jobs : List Job),
      (∃ o ∈ jobs, o.id = x) → ∃ o ∈ (addEventJobs now day L jobs).1, o.id = x := by
  intro L
  induction L with
  | nil => intro jobs h; exact h
  | cons p rest ih =>
    obtain ⟨name, v⟩ := p
    intro jobs h
    cases hc : schedCombineJson day v with
    | error e => simpa only [addEventJobs, hc] using h
    | ok t =>
      by_cases hle : t ≤ now
      · simp only [addEventJobs, hc, if_pos hle]
        exact ih jobs h
      · simp only [addEventJobs, hc, if_neg hle]
        exact ih _ (addJob_present_mono _ h)

theorem addQuranJobs_mono (now : Int) (day : Date) (x : String) :
    ∀ (L : List String) (jobs : List Job),
      (∃ o ∈ jobs, o.id = x) → ∃ o ∈ (addQuranJobs now day L jobs).1, o.id = x := by
  intro L
  induction L with
  | nil => intro jobs h; exact h
  | cons q rest ih =>
    intro jobs h
    cases hc : schedCombineStr day q with
    | error e => simpa only [addQuranJobs, hc] using h
    | ok t =>
      by_cases hle : t ≤ now
      · simp only [addQuranJobs, hc, if_pos hle]
        exact ih jobs h
      · simp only [addQuranJobs, hc, if_neg hle]
        exact ih _ (addJob_present_mono _ h)

theorem addEventJobs_establish (now : Int) (day : Date) :
    ∀ (L : List (String × Json)) (jobs : List Job) (name : String) (v : Json) (t : Int),
      (∀ p ∈ L, ∃ t2, schedCombineJson day p.2 = Except.ok t2) →
      (name, v) ∈ L → schedCombineJson day v = Except.ok t → now < t →
      ∃ o ∈ (addEventJobs now day L jobs).1, o.id = eventJobId name day := by
  intro L
  induction L with
  | nil => intro jobs name v t _ hm; simp at hm
  | cons p rest ih =>
    obtain ⟨n0, v0⟩ := p
    intro jobs name v t hv hm hc hlt
    obtain ⟨t0, hc0⟩ := hv (n0, v0) (List.mem_cons_self _ _)
    have hrest := fun p hp => hv p (List.mem_cons_of_mem _ hp)
    rcases List.mem_cons.mp hm with hhead | htail
    · obtain ⟨hn, hv2⟩ := Prod.mk.injEq .. ▸ hhead
      subst hn
      subst hv2
      rw [hc0] at hc
      injection hc with hct
      subst hct
      simp only [addEventJobs, hc0, if_neg (not_le.mpr hlt)]
      exact addEventJobs_mono now day _ rest _
        (addJob_present_self jobs ⟨eventJobId name day, t0, name⟩)
    · by_cases hle : t0 ≤ now
      · simp only [addEventJobs, hc0, if_pos hle]
        exact ih jobs name v t hrest htail hc hlt
      · simp only [addEventJobs, hc0, if_neg hle]
        exact ih _ name v t hrest htail hc hlt

theorem addQuranJobs_establish (now : Int) (day : Date) :
    ∀ (L : List String) (jobs : List Job) (q : String) (t : Int),
      (∀ q2 ∈ L, ∃ t2, schedCombineStr day q2 = Except.ok t2) →
      q ∈ L → schedCombineStr day q = Except.ok t → now < t →
      ∃ o ∈ (addQuranJobs now day L jobs).1, o.id = quranJobId day q := by
  intro L
  induction L with
  | nil => intro jobs q t _ hm; simp at hm
  | cons q0 rest ih =>
    intro jobs q t hv hm hc hlt
    obtain ⟨t0, hc0⟩ := hv q0 (List.mem_cons_self _ _)
    have hrest := fun p hp => hv p (List.mem_cons_of_mem _ hp)
    rcases List.mem_cons.mp hm with hhead | htail
    · subst hhead
      rw [hc0] at hc
      injection hc with hct
      subst hct
      simp only [addQuranJobs, hc0, if_neg (not_le.mpr hlt)]
      exact addQuranJobs_mono now day _ rest _
        (addJob_present_self jobs ⟨quranJobId day q, t0, "quran@" ++ q⟩)
    · by_cases hle : t0 ≤ now
      · simp only [addQuranJobs, hc0, if_pos hle]
        exact ih jobs q t hrest htail hc hlt
      · simp only [addQuranJobs, hc0, if_neg hle]
        exact ih _ q t hrest htail hc hlt

/-- When every time in the plan parses, `schedule_day` runs both loops to
completion. -/
theorem scheduleDay_unfold_ok (now : Int) (jobs : List Job) (plan : DayPlan)
    (quranTimes : List String)
    (hv : ∀ nv ∈ plan.times, ∃ t, schedCombineJson plan.date nv.2 = Except.ok t) :
    scheduleDay now jobs plan quranTimes =
      addQuranJobs now plan.date (quranTimes.insertionSort (fun a b => strLe a b))
        ((addEventJobs now plan.date
          (plan.times.insertionSort (fun a b => strLe a.1 b.1))
          (removeJobsForDate jobs plan.date)).1) := by
  have hok : (addEventJobs now plan.date
      (plan.times.insertionSort (fun a b => strLe a.1 b.1))
      (removeJobsForDate jobs plan.date)).2 = none :=
    addEventJobs_ok now plan.date _ _
      (fun p hp => hv p ((List.perm_insertionSort _ _).mem_iff.mp hp))
  simp only [scheduleDay]
  cases heq : addEventJobs now plan.date
      (plan.times.insertionSort (fun a b => strLe a.1 b.1))
      (removeJobsForDate jobs plan.date) with
  | mk js1 oe =>
    rw [heq] at hok
    cases oe with
    | some e => exact absurd hok (by simp)
    | none => rfl

theorem count_id_eq_one {jobs : List Job} {x : String}
    (hnd : (jobs.map Job.id).Nodup) (hp : ∃ o ∈ jobs, o.id = x) :
    (jobs.map Job.id).count x = 1 := by
  obtain ⟨o, ho, hid⟩ := hp
  exact List.count_eq_one_of_mem hnd (List.mem_map.mpr ⟨o, ho, hid⟩)

/-- Claim C4: calling `schedule_day` twice with the same plan and Quran list
leaves an id-unique job store with exactly one job per future (event name,
date) pair and one per future (Quran time, date) pair; re-adding a job under
an existing id replaces it in place and never duplicates. -/
theorem idempotent_scheduling (now : Int) (jobs : List Job) (plan : DayPlan)
    (quranTimes : List String)
    (hnd : (jobs.map Job.id).Nodup)
    (hv : ∀ nv ∈ plan.times, ∃ t, schedCombineJson plan.date nv.2 = Except.ok t)
    (hq : ∀ q ∈ quranTimes, ∃ t, schedCombineStr plan.date q = Except.ok t) :
    (((scheduleDay now ((scheduleDay now jobs plan quranTimes).1)
        plan quranTimes).1).map Job.id).Nodup ∧
    (∀ nv t, nv ∈ plan.times → schedCombineJson plan.date nv.2 = Except.ok t →
      now < t →
      (((scheduleDay now ((scheduleDay now jobs plan quranTimes).1)
          plan quranTimes).1).map Job.id).count (eventJobId nv.1 plan.date) = 1) ∧
    (∀ q t, q ∈ quranTimes → schedCombineStr plan.date q = Except.ok t → now < t →
      (((scheduleDay now ((scheduleDay now jobs plan quranTimes).1)
          plan quranTimes).1).map Job.id).count (quranJobId plan.date q) = 1) ∧
    (∀ (js : List Job) (j : Job), js.any (fun o => o.id == j.id) = true →
      (addJob js j).map Job.id = js.map Job.id) := by
  have hv' : ∀ p ∈ plan.times.insertionSort (fun a b => strLe a.1 b.1),
      ∃ t, schedCombineJson plan.date p.2 = Except.ok t :=
    fun p hp => hv p ((List.perm_insertionSort _ _).mem_iff.mp hp)
  have hq' : ∀ q ∈ quranTimes.insertionSort (fun a b => strLe a b),
      ∃ t, schedCombineStr plan.date q = Except.ok t :=
    fun q hqm => hq q ((List.perm_insertionSort _ _).mem_iff.mp hqm)
  have hremove : ∀ (js : List Job), (js.map Job.id).Nodup →
      ((removeJobsForDate js plan.date).map Job.id).Nodup := by
    intro js h
    exact h.sublist ((List.filter_sublist js).map Job.id)
  have hnodup1 : (((scheduleDay now jobs plan quranTimes).1).map Job.id).Nodup := by
    rw [scheduleDay_unfold_ok now jobs plan quranTimes hv]
    exact addQuranJobs_nodup now plan.date _ _
      (addEventJobs_nodup now plan.date _ _ (hremove jobs hnd))
  have hnodup2 : (((scheduleDay now ((scheduleDay now jobs plan quranTimes).1)
      plan quranTimes).1).map Job.id).Nodup := by
    rw [scheduleDay_unfold_ok now _ plan quranTimes hv]
    exact addQuranJobs_nodup now plan.date _ _
      (addEventJobs_nodup now plan.date _ _ (hremove _ hnodup1))
  refine ⟨hnodup2, ?_, ?_, fun js j h => addJob_map_id_of_mem h⟩
  · intro nv t hm hc hlt
    refine count_id_eq_one hnodup2 ?_
    rw [scheduleDay_unfold_ok now _ plan quranTimes hv]
    refine addQuranJobs_mono now plan.date _ _ _ ?_
    obtain ⟨name, v⟩ := nv
    exact addEventJobs_establish now plan.date _ _ name v t hv'
      ((List.perm_insertionSort _ _).mem_iff.mpr hm) hc hlt
  · intro q t hm hc hlt
    refine count_id_eq_one hnodup2 ?_
    rw [scheduleDay_unfold_ok now _ plan quranTimes hv]
    exact addQuranJobs_establish now plan.date _ _ q t hq'
      ((List.perm_insertionSort _ _).mem_iff.mpr hm) hc hlt

/-- Claim C4 witness: scheduling the same one-event/one-Quran plan twice
leaves exactly one `event_dhuhr_20250101` and one `quran_20250101_1815`
job, and replacing by id never grows the id list. -/
theorem idempotent_scheduling_witness :
    (((scheduleDay 1064522880 ((scheduleDay 1064522880 []
        ⟨⟨2025, 1, 1⟩, Json.jstr "shafi", Json.jstr "colombo",
          [("dhuhr", Json.jstr "12:00")]⟩ ["18:15"]).1)
        ⟨⟨2025, 1, 1⟩, Json.jstr "shafi", Json.jstr "colombo",
          [("dhuhr", Json.jstr "12:00")]⟩ ["18:15"]).1).map Job.id).count
      "event_dhuhr_20250101" = 1 ∧
    (((scheduleDay 1064522880 ((scheduleDay 1064522880 []
        ⟨⟨2025, 1, 1⟩, Json.jstr "shafi", Json.jstr "colombo",
          [("dhuhr", Json.jstr "12:00")]⟩ ["18:15"]).1)
        ⟨⟨2025, 1, 1⟩, Json.jstr "shafi", Json.jstr "colombo",
          [("dhuhr", Json.jstr "12:00")]⟩ ["18:15"]).1).map Job.id).count
      "quran_20250101_1815" = 1 := by
  have h := idempotent_scheduling 1064522880 []
    ⟨⟨2025, 1, 1⟩, Json.jstr "shafi", Json.jstr "colombo",
      [("dhuhr", Json.jstr "12:00")]⟩ ["18:15"]
    (by simp)
    (by intro nv hm; rw [List.mem_singleton] at hm; subst hm; exact ⟨1064523600, rfl⟩)
    (by intro q hm; rw [List.mem_singleton] at hm; subst hm; exact ⟨1064523975, rfl⟩)
  refine ⟨?_, ?_⟩
  · exact h.2.1 ("dhuhr", Json.jstr "12:00") 1064523600
      (List.mem_singleton.mpr rfl) rfl (by decide)
  · exact h.2.2.1 "18:15" 1064523975 (List.mem_singleton.mpr rfl) rfl (by decide)

end Prayerhub
